import Mathlib

/-!
Verification development for the `intuitiveness` repository.

The Python source is shallowly embedded in Lean 4: pandas-like frames become
explicit column lists, floats become exact rationals `ℚ` (with NaN and the two
IEEE infinities modelled as explicit constructors where the code manipulates
them), fallible code returns `Except`/`Option`, and the external TabPFN
collaborator is modelled by an explicit outcome parameter, as the spec treats
it as an external collaborator.

Modules embedded from the source:
  - `src/intuitiveness/ascent/graph_builder.py` (L2→L3 graph building)
  - `src/intuitiveness/ascent/unfold.py` (L0→L1 unfolding)
  - `src/intuitiveness/ascent/enrich.py` (numeric branch of L1→L2 enrichment)
  - `src/intuitiveness/redesign/lineage.py` (lineage export/load round trip)
  - `src/intuitiveness/quality/instant_export.py` (instant-export pipeline)

The `intuitiveness.complexity` module (Level datasets, `ComplexityLevel`),
`intuitiveness.utils` (type detection, thresholds) and
`intuitiveness.quality.models` (`ExportResult`, `CleaningAction`) are not part
of the provided sources; their small data-holder definitions are modelled from
the spec and marked `Modelled from the spec:` in their doc comments.
-/

/-! ### Shared scalar cells -/

/-- A cell of a numeric pandas column: missing (NaN), +inf, -inf, or an exact
rational standing for the float value. -/
inductive NumCell where
  | na : NumCell
  | pinf : NumCell
  | ninf : NumCell
  | val (q : ℚ) : NumCell
deriving DecidableEq, Repr, Inhabited

/-- A cell of a categorical (string-valued) pandas column: missing or a string. -/
inductive CatCell where
  | na : CatCell
  | val (s : String) : CatCell
deriving DecidableEq, Repr, Inhabited

/-- `pd.isna` on a numeric cell (infinities are not NA). -/
def NumCell.isna : NumCell → Bool
  | .na => true
  | _ => false

/-- `np.isinf` on a numeric cell. -/
def NumCell.isinf : NumCell → Bool
  | .pinf => true
  | .ninf => true
  | _ => false

/-- `pd.isna` on a categorical cell. -/
def CatCell.isna : CatCell → Bool
  | .na => true
  | _ => false

/-- First-occurrence deduplication, the order `pd.unique` uses. -/
def uniqueFirst {α : Type} [DecidableEq α] (l : List α) : List α :=
  l.foldl (fun acc a => if a ∈ acc then acc else acc ++ [a]) []

/-- `needle` occurs as a contiguous substring of `hay` (Python's `in` on
strings), on character lists. -/
def charsContain (hay needle : List Char) : Bool :=
  match hay with
  | [] => needle.isEmpty
  | _ :: t => needle.isPrefixOf hay || charsContain t needle

/-- Python's `needle in hay` substring test for strings. -/
def strContains (hay needle : String) : Bool :=
  charsContain hay.toList needle.toList

/-- Python's `str.lower()`, character by character. -/
def pyLower (s : String) : String :=
  ⟨s.toList.map Char.toLower⟩

/-! ### L2→L3 graph building (`ascent/graph_builder.py`)

The embedding covers L2 tables with a default `RangeIndex` (the
`df.index.name` is unset, so original entities are `range(len(df))`) and
string-valued cells; row nodes (`NodeId.rowId`) and extracted entity nodes
(`NodeId.entVal`) are therefore distinct Python values, as in the source. -/

/-- Identity of a networkx node in the built bipartite graph. -/
inductive NodeId where
  | rowId (n : ℕ)
  | entVal (s : String)
deriving DecidableEq, Repr, Inhabited

/-- A networkx attribute dictionary (string keys and values). -/
abbrev AttrDict := List (String × String)

/-- `dict.update`: existing keys overwritten, new keys appended. -/
def attrsUpdate (old new : AttrDict) : AttrDict :=
  old.map (fun kv => (kv.1, ((new.lookup kv.1).getD kv.2))) ++
    new.filter (fun kv => (old.lookup kv.1).isNone)

/-- A directed edge with its attribute payload, as written by
`build_l2_to_l3_graph` (`relationship`, `source_column`, optional `weight`). -/
structure GEdge where
  src : NodeId
  dst : NodeId
  relationship : String
  source_column : String
  weight : Option String
deriving DecidableEq, Repr, Inhabited

/-- An `nx.DiGraph`: node list with attribute dicts (insertion order) and an
edge list keyed by (src, dst). -/
structure Graph where
  nodes : List (NodeId × AttrDict) := []
  edges : List GEdge := []
deriving DecidableEq, Repr, Inhabited

/-- Node ids of a graph, in insertion order. -/
def Graph.nodeIds (g : Graph) : List NodeId :=
  g.nodes.map Prod.fst

/-- `G.add_node(v, **attrs)`: merge attributes when the node exists, else
append it. -/
def Graph.addNode (g : Graph) (v : NodeId) (a : AttrDict) : Graph :=
  if v ∈ g.nodeIds then
    { g with nodes := g.nodes.map (fun p => if p.1 = v then (p.1, attrsUpdate p.2 a) else p) }
  else
    { g with nodes := g.nodes ++ [(v, a)] }

/-- `G.add_edge(u, v, **attrs)`: endpoints are created without attributes when
missing, and an existing (u, v) edge has its attributes replaced. -/
def Graph.addEdge (g : Graph) (e : GEdge) : Graph :=
  let g1 := if e.src ∈ g.nodeIds then g else { g with nodes := g.nodes ++ [(e.src, [])] }
  let g2 := if e.dst ∈ g1.nodeIds then g1 else { g1 with nodes := g1.nodes ++ [(e.dst, [])] }
  if (g2.edges.filter (fun e0 => e0.src = e.src ∧ e0.dst = e.dst)).isEmpty then
    { g2 with edges := g2.edges ++ [e] }
  else
    { g2 with edges := g2.edges.map (fun e0 => if e0.src = e.src ∧ e0.dst = e.dst then e else e0) }

/-- `G.degree(v)` of an `nx.DiGraph`: in-degree plus out-degree. -/
def Graph.degree (g : Graph) (v : NodeId) : ℕ :=
  (g.edges.filter (fun e => e.src = v)).length + (g.edges.filter (fun e => e.dst = v)).length

/-- `validate_no_orphan_nodes`: the ids of all nodes with degree 0. -/
def validate_no_orphan_nodes (g : Graph) : List NodeId :=
  g.nodeIds.filter (fun v => g.degree v = 0)

/-- A column of an L2 table used by the graph builder (cells as optional
strings; `none` is a null/NaN cell). -/
structure GCol where
  name : String
  cells : List (Option String)
deriving DecidableEq, Repr, Inhabited

/-- The data of a `Level2Dataset` as seen by `build_l2_to_l3_graph`. -/
structure GTable where
  cols : List GCol
deriving DecidableEq, Repr, Inhabited

/-- `df[name]` column lookup (first column of that name). -/
def GTable.getCol (t : GTable) (name : String) : Option GCol :=
  t.cols.find? (fun c => c.name = name)

/-- `len(df)` for a rectangular frame (length of the first column). -/
def GTable.nrows (t : GTable) : ℕ :=
  ((t.cols.head?).map (fun c => c.cells.length)).getD 0

/-- Errors raised by `build_l2_to_l3_graph`: `ValueError` for a missing entity
column and `OrphanNodeError` carrying the offending node ids. -/
inductive GraphBuildError where
  | valueError (msg : String)
  | orphanNodeError (orphans : List NodeId) (msg : String)
deriving DecidableEq, Repr

/-- Metadata attached to the built L3 dataset. -/
structure L3Meta where
  built_from : String
  entity_column : String
  relationship_type : String
  node_count : ℕ
  edge_count : ℕ
  bipartite : Bool
  source_operation : String
deriving DecidableEq, Repr, Inhabited

/-- A `Level3Dataset`: the graph plus its `_metadata`.
Modelled from the spec: the `Level3Dataset` wrapper class lives in the absent
`intuitiveness.complexity` module; per the spec an L3 dataset is a directed
graph with provenance metadata. -/
structure Level3Dataset where
  graph : Graph
  metadata : L3Meta
deriving DecidableEq, Repr, Inhabited

/-- Graph construction part of `build_l2_to_l3_graph` (everything before the
orphan check): row nodes from `range(len(df))`, extracted nodes from the
distinct non-null entity values, one edge per row with a non-null entity
value. Returns `none` when `entity_column` is absent (`ValueError` path). -/
def buildGraphCore (table : GTable) (entity_column : String)
    (value_column : Option String) (relationship_type : String) : Option Graph :=
  match table.getCol entity_column with
  | none => none
  | some ecol =>
    let g0 : Graph := (List.range table.nrows).foldl
      (fun g i => g.addNode (.rowId i) [("node_type", "original"), ("entity_type", "row")]) {}
    let g1 : Graph := (uniqueFirst ecol.cells).foldl
      (fun g e =>
        match e with
        | none => g
        | some s => g.addNode (.entVal s) [("node_type", "extracted"), ("entity_type", entity_column)]) g0
    let wcol : Option GCol := value_column.bind (fun name => table.getCol name)
    let g2 : Graph := (List.range table.nrows).foldl
      (fun g i =>
        match ecol.cells.getD i none with
        | none => g
        | some s =>
          g.addEdge
            { src := .rowId i, dst := .entVal s, relationship := relationship_type,
              source_column := entity_column,
              weight := wcol.bind (fun c => c.cells.getD i none) }) g1
    some g2

/-- `build_l2_to_l3_graph`: construct the bipartite graph, reject it wholesale
with `OrphanNodeError` when validation is enabled and a degree-0 node exists,
otherwise return the graph with its metadata. -/
def build_l2_to_l3_graph (table : GTable) (entity_column : String)
    (value_column : Option String := none) (relationship_type : String := "belongs_to")
    (validate_orphans : Bool := true) : Except GraphBuildError Level3Dataset :=
  match buildGraphCore table entity_column value_column relationship_type with
  | none =>
    .error (.valueError s!"Column \x27{entity_column}\x27 not found in table.")
  | some G =>
    let orphans := validate_no_orphan_nodes G
    if validate_orphans ∧ ¬ orphans.isEmpty then
      .error (.orphanNodeError orphans
        (s!"Graph construction would create {orphans.length} orphan node(s).\\n" ++
         "Design Constraint 1: All nodes must have at least one edge."))
    else
      .ok
        { graph := G,
          metadata :=
            { built_from := "L2_table", entity_column := entity_column,
              relationship_type := relationship_type,
              node_count := G.nodes.length, edge_count := G.edges.length,
              bipartite := true,
              source_operation := s!"Built graph extracting \x27{entity_column}\x27 as entities" } }

/-! ### L0→L1 unfolding (`ascent/unfold.py`) -/

/-- An L1 vector cell: a rational value or a missing entry. -/
abbrev SCell := Option ℚ

/-- A named, ordered sequence of scalar values.
Modelled from the spec: the `Level1Dataset` wrapper class lives in the absent
`intuitiveness.complexity` module; per the spec §3 an L1 dataset is a named,
ordered sequence of scalar values, with provenance metadata attached by the
transitions. -/
structure Level1Dataset where
  data : List SCell
  name : String
  metadata : Option (List (String × String)) := none
deriving DecidableEq, Repr, Inhabited

/-- An L0 scalar datum.
Modelled from the spec: the `Level0Dataset` class lives in the absent
`intuitiveness.complexity` module; per the spec §3 an L0 value is a single
scalar plus `{aggregation_method, optional parent_reference}`, where the
parent reference (`has_parent`) and its payload (`parent_data`) are the two
things `unfold_l0_to_l1` inspects. -/
structure Level0Dataset where
  value : Option ℚ
  aggregation_method : String
  has_parent : Bool
  parent_data : Option Level1Dataset
deriving DecidableEq, Repr, Inhabited

/-- `NoParentError` (the unfold error kind). -/
inductive UnfoldError where
  | noParentError (msg : String)
deriving DecidableEq, Repr

/-- Render an optional scalar the way Python prints it in f-strings. -/
def optQToString : Option ℚ → String
  | none => "nan"
  | some q => toString q

/-- `unfold_l0_to_l1`: strict parent validation (Option A), then return the
exact parent vector annotated with the original scalar, aggregation method and
original length. -/
def unfold_l0_to_l1 (datum : Level0Dataset) (validate_parent : Bool := true) :
    Except UnfoldError Level1Dataset :=
  if validate_parent ∧ ¬ datum.has_parent then
    .error (.noParentError
      (s!"Cannot unfold datum \x27{optQToString datum.value}\x27 to L1: no parent vector exists. " ++
       "This datum was not created by aggregating a vector, so there\x27s no original data to restore."))
  else
    match datum.parent_data with
    | none => .error (.noParentError "parent_data is None but validation was disabled")
    | some parent_series =>
      .ok
        { data := parent_series.data,
          name := parent_series.name,
          metadata := some
            [("unfolded_from", optQToString datum.value),
             ("aggregation_method", datum.aggregation_method),
             ("original_length", toString parent_series.data.length),
             ("source_operation",
               s!"Unfolded from L0 datum (aggregation: {datum.aggregation_method})")] }

/-- Mean of the non-missing entries of a vector (`pd.Series.mean` skips NaN;
`none` when there is no non-missing entry). -/
def seriesMean (v : List SCell) : Option ℚ :=
  let vals := v.filterMap id
  if vals.length = 0 then none else some (vals.sum / vals.length)

/-- Scalar produced by aggregating a vector with a named method.
Modelled from the spec: the aggregation operation itself lives in the absent
`intuitiveness.complexity` module; per the spec the supported methods are
mean/sum/count over the vector (mean/sum skip missing entries as pandas does,
count counts non-missing entries). -/
def aggValue (method : String) (v : List SCell) : Option ℚ :=
  if method = "mean" then seriesMean v
  else if method = "sum" then some (v.filterMap id).sum
  else if method = "count" then some ((v.filterMap id).length : ℚ)
  else none

/-- L1→L0 aggregation.
Modelled from the spec: the aggregation constructor lives in the absent
`intuitiveness.complexity` module; per the spec §3, "an L0 value created by
aggregation always carries a reference to the exact parent L1 vector it was
aggregated from". -/
def aggregate_l1_to_l0 (v : Level1Dataset) (method : String) : Level0Dataset :=
  { value := aggValue method v.data,
    aggregation_method := method,
    has_parent := true,
    parent_data := some v }

/-! ### L1→L2 numeric enrichment (`ascent/enrich.py`)

The numeric branch of `enrich_l1_to_l2` (`_categorize_numeric_values`).
Values are exact rationals or missing; IEEE infinities are outside this
function's model (they would make every statistic NaN). The comparisons
`value >= median + threshold*std` are decided in ℚ by sign analysis and
squaring, since `std` is the square root of the rational sample variance. -/

/-- Insert into a `le`-sorted list keeping order (ascending sort step). -/
def insertLe {α : Type} (le : α → α → Bool) (a : α) : List α → List α
  | [] => [a]
  | b :: t => if le a b then a :: b :: t else b :: insertLe le a t

/-- Insertion sort by a boolean `le`. -/
def sortByLe {α : Type} (le : α → α → Bool) (l : List α) : List α :=
  l.foldr (insertLe le) []

/-- Sorted rational median (`pd.Series.median` over the non-missing values):
middle element, or the mean of the two middles; `none` for an empty list
(pandas returns NaN). -/
def medianQ (vals : List ℚ) : Option ℚ :=
  let s := sortByLe (fun a b : ℚ => decide (a ≤ b)) vals
  let n := s.length
  if n = 0 then none
  else if n % 2 = 1 then some (s.getD (n / 2) 0)
  else some ((s.getD (n / 2 - 1) 0 + s.getD (n / 2) 0) / 2)

/-- Sample variance with `ddof = 1` (`pd.Series.std` squared) over the
non-missing values; `none` (NaN std) when fewer than two values. -/
def sampleVarQ (vals : List ℚ) : Option ℚ :=
  let n := vals.length
  if n < 2 then none
  else
    let m := vals.sum / n
    some ((vals.map (fun x => (x - m) ^ 2)).sum / (n - 1 : ℚ))

/-- Decide `d ≥ t·√v` for `v ≥ 0` without leaving ℚ, by sign analysis and
squaring. -/
def geMulSqrt (d t v : ℚ) : Bool :=
  if 0 ≤ t then decide (0 ≤ d) && decide (t ^ 2 * v ≤ d ^ 2)
  else decide (0 ≤ d) || decide (d ^ 2 ≤ t ^ 2 * v)

/-- Decide `d > t·√v` for `v ≥ 0` without leaving ℚ. -/
def gtMulSqrt (d t v : ℚ) : Bool :=
  if 0 ≤ t then decide (0 < d) && decide (t ^ 2 * v < d ^ 2)
  else decide (0 ≤ d) || decide (d ^ 2 < t ^ 2 * v)

/-- The "high" target domain: first domain whose lower-cased name contains
"high", else the first domain. -/
def highDomainOf (domains : List String) : String :=
  (domains.find? (fun d => strContains (pyLower d) "high")).getD (domains.headD "")

/-- The "low" target domain: first domain whose lower-cased name contains
"low", else the last domain. -/
def lowDomainOf (domains : List String) : String :=
  (domains.find? (fun d => strContains (pyLower d) "low")).getD (domains.getLastD "")

/-- The middle target domain: first domain containing "mid" or "medium", else
`domains[len(domains)//2]` when more than two domains exist, else the literal
string `"medium"`. -/
def midDomainOf (domains : List String) : String :=
  (domains.find? (fun d => strContains (pyLower d) "mid" || strContains (pyLower d) "medium")).getD
    (if domains.length > 2 then domains.getD (domains.length / 2) "" else "medium")

/-- `_categorize_numeric_values`: bin each value against
`median ± threshold·std` (NaN values → "unknown"; a NaN std, which arises with
fewer than two non-missing values, makes both comparisons false, so every
value falls to the middle branch, as float comparisons against NaN do). -/
def _categorize_numeric_values (series : List SCell) (domains : List String)
    (threshold : ℚ) : List String :=
  let vals := series.filterMap id
  let median := medianQ vals
  let variance := sampleVarQ vals
  series.map fun c =>
    match c with
    | none => "unknown"
    | some v =>
      match median, variance with
      | some m, some s2 =>
        if geMulSqrt (v - m) threshold s2 then highDomainOf domains
        else if geMulSqrt (m - v) threshold s2 then lowDomainOf domains
        else midDomainOf domains
      | _, _ => midDomainOf domains

/-- The claim's reading of the numeric branch, written from its words: each
non-missing value *strictly above* `median + threshold·std` goes to the first
domain containing "high" (else the first domain), each value *strictly below*
`median − threshold·std` to the first domain containing "low" (else the last
domain), every other value to a domain containing "mid"/"medium" (else the
middle-index domain, or the literal "medium" when only two domains exist);
missing values get "unknown". -/
def claimCategorizeNumericStrict (series : List SCell) (domains : List String)
    (threshold : ℚ) : List String :=
  let vals := series.filterMap id
  let median := medianQ vals
  let variance := sampleVarQ vals
  series.map fun c =>
    match c with
    | none => "unknown"
    | some v =>
      match median, variance with
      | some m, some s2 =>
        if gtMulSqrt (v - m) threshold s2 then
          (domains.filter (fun d => strContains (pyLower d) "high")).headD (domains.headD "")
        else if gtMulSqrt (m - v) threshold s2 then
          (domains.filter (fun d => strContains (pyLower d) "low")).headD (domains.getLastD "")
        else
          (domains.filter (fun d => strContains (pyLower d) "mid" || strContains (pyLower d) "medium")).headD
            (if domains.length = 2 then "medium" else domains.getD (domains.length / 2) "")
      | _, _ =>
        (domains.filter (fun d => strContains (pyLower d) "mid" || strContains (pyLower d) "medium")).headD
          (if domains.length = 2 then "medium" else domains.getD (domains.length / 2) "")

/-- The amended claim, written from its words: the high/low bins are
*inclusive* (`value ≥ median + threshold·std`, checked first, then
`value ≤ median − threshold·std`), and the middle fallback is the middle-index
domain when *more than two* domains exist, else the literal "medium". -/
def claimCategorizeNumericAmended (series : List SCell) (domains : List String)
    (threshold : ℚ) : List String :=
  let vals := series.filterMap id
  let median := medianQ vals
  let variance := sampleVarQ vals
  series.map fun c =>
    match c with
    | none => "unknown"
    | some v =>
      match median, variance with
      | some m, some s2 =>
        if geMulSqrt (v - m) threshold s2 then
          (domains.filter (fun d => strContains (pyLower d) "high")).headD (domains.headD "")
        else if geMulSqrt (m - v) threshold s2 then
          (domains.filter (fun d => strContains (pyLower d) "low")).headD (domains.getLastD "")
        else
          (domains.filter (fun d => strContains (pyLower d) "mid" || strContains (pyLower d) "medium")).headD
            (if domains.length > 2 then domains.getD (domains.length / 2) "" else "medium")
      | _, _ =>
        (domains.filter (fun d => strContains (pyLower d) "mid" || strContains (pyLower d) "medium")).headD
          (if domains.length > 2 then domains.getD (domains.length / 2) "" else "medium")

/-! ### Lineage export/import (`redesign/lineage.py`) -/

/-- The ordered `ComplexityLevel` enum, with its Python member names.
Modelled from the spec: the enum lives in the absent
`intuitiveness.complexity` module; member names (`LEVEL_4` … `LEVEL_0`)
follow the source doctests (`ComplexityLevel.LEVEL_4`). -/
inductive ComplexityLevel where
  | LEVEL_4 | LEVEL_3 | LEVEL_2 | LEVEL_1 | LEVEL_0
deriving DecidableEq, Repr, Inhabited

/-- `level.name` (Python `Enum.name`). -/
def ComplexityLevel.pyName : ComplexityLevel → String
  | .LEVEL_4 => "LEVEL_4"
  | .LEVEL_3 => "LEVEL_3"
  | .LEVEL_2 => "LEVEL_2"
  | .LEVEL_1 => "LEVEL_1"
  | .LEVEL_0 => "LEVEL_0"

/-- `ComplexityLevel[name]` (Python `Enum` item lookup; `none` is the
`KeyError` case). -/
def complexityLevelOfName (s : String) : Option ComplexityLevel :=
  if s = "LEVEL_4" then some .LEVEL_4
  else if s = "LEVEL_3" then some .LEVEL_3
  else if s = "LEVEL_2" then some .LEVEL_2
  else if s = "LEVEL_1" then some .LEVEL_1
  else if s = "LEVEL_0" then some .LEVEL_0
  else none

/-- A JSON value, the payload type of lineage `parameters` and `metadata`
(string-keyed maps of JSON-serializable values). -/
inductive JsonVal where
  | null : JsonVal
  | bool (b : Bool) : JsonVal
  | num (q : ℚ) : JsonVal
  | str (s : String) : JsonVal
  | arr (xs : List JsonVal) : JsonVal
  | obj (kvs : List (String × JsonVal)) : JsonVal

/-- A `SourceReference`: one transformation operation record. The timestamp is
identified with its ISO-8601 rendering, since `datetime.isoformat` and
`datetime.fromisoformat` are mutually inverse. -/
structure SourceReference where
  operation_type : String
  input_level : ComplexityLevel
  output_level : ComplexityLevel
  timestamp : String
  parameters : List (String × JsonVal) := []
  duration_ms : ℚ := 0
  row_count_before : Option ℤ := none
  row_count_after : Option ℤ := none

/-- The dictionary form of one operation, as written by
`SourceReference.to_dict` into the export document (all eight keys present). -/
structure OpDict where
  operation_type : String
  input_level : String
  output_level : String
  timestamp : String
  parameters : List (String × JsonVal)
  duration_ms : ℚ
  row_count_before : Option ℤ
  row_count_after : Option ℤ

/-- `SourceReference.to_dict`. -/
def SourceReference.to_dict (r : SourceReference) : OpDict :=
  { operation_type := r.operation_type,
    input_level := r.input_level.pyName,
    output_level := r.output_level.pyName,
    timestamp := r.timestamp,
    parameters := r.parameters,
    duration_ms := r.duration_ms,
    row_count_before := r.row_count_before,
    row_count_after := r.row_count_after }

/-- `SourceReference.from_dict`; `none` is the `KeyError` raised by
`ComplexityLevel[...]` on an unknown level name. -/
def SourceReference.from_dict (d : OpDict) : Option SourceReference :=
  match complexityLevelOfName d.input_level, complexityLevelOfName d.output_level with
  | some i, some o =>
    some
      { operation_type := d.operation_type,
        input_level := i,
        output_level := o,
        timestamp := d.timestamp,
        parameters := d.parameters,
        duration_ms := d.duration_ms,
        row_count_before := d.row_count_before,
        row_count_after := d.row_count_after }
  | _, _ => none

/-- A `DataLineage`: ordered operation log, metadata, creation timestamp. -/
structure DataLineage where
  operations : List SourceReference := []
  metadata : List (String × JsonVal) := []
  created_at : String := ""

/-- `DataLineage.get_history`: the full ordered log as dictionaries. -/
def DataLineage.get_history (l : DataLineage) : List OpDict :=
  l.operations.map SourceReference.to_dict

/-- `DataLineage.get_total_duration`. -/
def DataLineage.get_total_duration (l : DataLineage) : ℚ :=
  (l.operations.map (fun op => op.duration_ms)).sum

/-- The durable JSON document written by `DataLineage.export`. -/
structure ExportDoc where
  metadata : List (String × JsonVal)
  created_at : String
  total_operations : ℕ
  total_duration_ms : ℚ
  operations : List OpDict

/-- `DataLineage.export` (the document handed to `json.dump`). -/
def DataLineage.export (l : DataLineage) : ExportDoc :=
  { metadata := l.metadata,
    created_at := l.created_at,
    total_operations := l.operations.length,
    total_duration_ms := l.get_total_duration,
    operations := l.get_history }

/-- `DataLineage.load`: rebuild a lineage from an export document; `none` is
the `KeyError` propagated from `SourceReference.from_dict`. -/
def DataLineage.load (doc : ExportDoc) : Option DataLineage :=
  (doc.operations.mapM SourceReference.from_dict).map
    (fun ops => { operations := ops, metadata := doc.metadata, created_at := doc.created_at })

/-! ### Instant export (`quality/instant_export.py`) -/

/-- Data of one column of a frame, tagged with its semantic type.
The strongly-typed tag replaces `intuitiveness.utils.detect_feature_type`
(absent from the sources); per the spec §9 the reimplementation dispatches on
a declared numeric/categorical tag instead of runtime type inspection. -/
inductive ColData where
  | numeric (cells : List NumCell)
  | categorical (cells : List CatCell)
deriving DecidableEq, Repr, Inhabited

/-- A named column. -/
structure Col where
  name : String
  data : ColData
deriving DecidableEq, Repr, Inhabited

/-- A pandas DataFrame: ordered columns (rectangularity is a separate
well-formedness predicate). -/
structure DataFrame where
  cols : List Col
deriving DecidableEq, Repr, Inhabited

/-- Number of cells of a column. -/
def ColData.length : ColData → ℕ
  | .numeric cells => cells.length
  | .categorical cells => cells.length

/-- Count of missing cells (`series.isna().sum()`). -/
def ColData.nmissing : ColData → ℕ
  | .numeric cells => (cells.filter (fun c => c.isna)).length
  | .categorical cells => (cells.filter (fun c => c.isna)).length

/-- The non-missing strings of a categorical column. -/
def catValsOf (cells : List CatCell) : List String :=
  cells.filterMap (fun c => match c with | .na => none | .val s => some s)

/-- Count of distinct non-missing values (`series.nunique()`). -/
def ColData.nunique : ColData → ℕ
  | .numeric cells => ((cells.filter (fun c => !c.isna)).dedup).length
  | .categorical cells => ((catValsOf cells).dedup).length

/-- All columns have the same number of rows. -/
def DataFrame.WF (df : DataFrame) : Prop :=
  ∀ c ∈ df.cols, c.data.length = ((df.cols.head?.map (fun c0 => c0.data.length)).getD 0)

instance (df : DataFrame) : Decidable df.WF := by
  unfold DataFrame.WF
  exact List.decidableBAll _ _

/-- `len(df)` (length of the first column; frames are rectangular). -/
def DataFrame.nrows (df : DataFrame) : ℕ :=
  ((df.cols.head?.map (fun c => c.data.length)).getD 0)

/-- `df.columns`. -/
def DataFrame.colNames (df : DataFrame) : List String :=
  df.cols.map (fun c => c.name)

/-- `df[name]` (first column of that name). -/
def DataFrame.getCol (df : DataFrame) (name : String) : Option Col :=
  df.cols.find? (fun c => c.name = name)

/-- `intuitiveness.utils.MIN_ROWS_FOR_ASSESSMENT`.
Modelled from the spec: `utils` is absent; the spec's minimum-rows threshold
is 10 ("dataset must have ≥ 10 rows"). -/
def MIN_ROWS_FOR_ASSESSMENT : ℕ := 10

/-- `intuitiveness.utils.HIGH_CARDINALITY_THRESHOLD`.
Modelled from the spec: `utils` is absent; the cleaning step collapses a
categorical column to its top 99 values when its distinct count exceeds this
threshold, so the threshold is taken as 100. -/
def HIGH_CARDINALITY_THRESHOLD : ℕ := 100

/-- `intuitiveness.utils.detect_task_type`.
Modelled from the spec: `utils` is absent; a categorical target is a
classification task, a numeric one a regression task. -/
def detect_task_type : ColData → String
  | .categorical _ => "classification"
  | .numeric _ => "regression"

/-- One corrective edit of the cleaning pipeline.
Modelled from the spec: `quality/models.py` is absent; per the spec §3 a
`CleaningAction` is an immutable record
`{action_type, column, description, rows_affected}`. -/
structure CleaningAction where
  action_type : String
  column : String
  description : String
  rows_affected : ℕ
deriving DecidableEq, Repr, Inhabited

/-- The aggregate result of one pipeline run.
Modelled from the spec: `quality/models.py` is absent; fields and their
defaults follow the spec §3 and the constructor calls in
`instant_export.py` and its tests (every field but `is_ready` defaults). -/
structure ExportResult where
  is_ready : Bool
  summary : String := ""
  warnings : List String := []
  cleaning_actions : List CleaningAction := []
  cleaned_df : Option DataFrame := none
  original_row_count : ℕ := 0
  cleaned_row_count : ℕ := 0
  original_col_count : ℕ := 0
  cleaned_col_count : ℕ := 0
  target_column : String := ""
  task_type : String := ""
  validation_score : Option ℚ := none
  processing_time_seconds : ℚ := 0
  api_calls_used : ℕ := 0
deriving DecidableEq, Repr, Inhabited

/-- The `PLAIN_SUMMARIES` lookup table. -/
def PLAIN_SUMMARIES : String → String
  | "ready" => "Your data is ready to use! You can export it now."
  | "ready_with_fixes" => "Your data is ready after some automatic fixes. You can export it now."
  | "needs_target" => "Please select which column you want to predict or analyze."
  | "too_small" => "Your data has very few rows. You may need more data for reliable analysis."
  | "too_messy" => "Your data has significant issues that need manual review."
  | "no_numeric" => "Your data has no number columns. Consider adding some numeric data."
  | _ => ""

/-- The `PLAIN_WARNINGS` lookup table. -/
def PLAIN_WARNINGS : String → String
  | "missing_values" => "Some cells were empty - we filled them with typical values."
  | "text_encoded" => "Text columns were converted to numbers for analysis."
  | "high_cardinality" => "Some columns had too many different values and were simplified."
  | "column_removed" => "Some columns couldn\x27t be used and were removed."
  | "rows_with_issues" => "Some rows had problems and were excluded."
  | "small_dataset" => "With few rows, results may be less reliable."
  | "many_columns" => "Your data has many columns - only the most useful ones are kept."
  | _ => ""

/-- `InstantExporter._validate_basic`: the list of blocking issues (empty
means valid). -/
def _validate_basic (df : DataFrame) (target_column : String) : List String :=
  if target_column ∉ df.colNames then
    [s!"Column \x27{target_column}\x27 not found in your data."]
  else if df.nrows < 10 then
    [PLAIN_SUMMARIES "too_small"]
  else if ((df.getCol target_column).map (fun c => c.data.nunique)).getD 0 < 2 then
    ["The column you selected has only one value - nothing to analyze."]
  else if (df.cols.filter (fun c => ¬ c.name = target_column)).isEmpty then
    ["Your data needs at least one column besides the target."]
  else []

/-- Ascending boolean order on non-NA numeric cells (−inf < rationals < +inf);
`na` never reaches the sort (it is filtered out first). -/
def NumCell.leB : NumCell → NumCell → Bool
  | .na, _ => true
  | _, .na => true
  | .ninf, _ => true
  | _, .pinf => true
  | .pinf, _ => false
  | _, .ninf => false
  | .val a, .val b => decide (a ≤ b)

/-- IEEE mean of two cells (used for the even-length median). -/
def NumCell.avg2 : NumCell → NumCell → NumCell
  | .na, _ => .na
  | _, .na => .na
  | .val a, .val b => .val ((a + b) / 2)
  | .pinf, .pinf => .pinf
  | .ninf, .ninf => .ninf
  | .pinf, .ninf => .na
  | .ninf, .pinf => .na
  | .pinf, .val _ => .pinf
  | .val _, .pinf => .pinf
  | .ninf, .val _ => .ninf
  | .val _, .ninf => .ninf

/-- `series.median()`: sort the non-missing cells, take the middle one (odd
count) or the mean of the two middles (even count); NaN for an empty series. -/
def medianCells (cells : List NumCell) : NumCell :=
  let nn := sortByLe NumCell.leB (cells.filter (fun c => !c.isna))
  let n := nn.length
  if n = 0 then .na
  else if n % 2 = 1 then nn.getD (n / 2) .na
  else NumCell.avg2 (nn.getD (n / 2 - 1) .na) (nn.getD (n / 2) .na)

/-- `series.mode().iloc[0]`: the lexicographically first among the most
frequent non-missing values (`pd.Series.mode` returns them sorted); `none`
when the series has no non-missing value. -/
def modeCat (cells : List CatCell) : Option String :=
  let vals := catValsOf cells
  let uniq := uniqueFirst vals
  let maxCnt := (uniq.map (fun s => vals.count s)).foldr max 0
  (uniq.filter (fun s => vals.count s = maxCnt)).min?

/-- `series.value_counts()`: distinct non-missing values with their counts,
sorted by count descending (stable on first appearance). -/
def valueCounts (cells : List CatCell) : List (String × ℕ) :=
  let vals := catValsOf cells
  sortByLe (fun a b : String × ℕ => decide (b.2 ≤ a.2))
    ((uniqueFirst vals).map (fun s => (s, vals.count s)))

/-- The top-99 most frequent values (`value_counts().head(99).index`). -/
def top99 (cells : List CatCell) : List String :=
  ((valueCounts cells).take 99).map Prod.fst

/-- Collapse of a high-cardinality column: keep the top 99 values, map
everything else (missing cells included, as `x in top_values` is false for
NaN) to the sentinel string `"_other_"`. -/
def collapseTop99 (cells : List CatCell) : List CatCell :=
  let top := top99 cells
  cells.map (fun c =>
    match c with
    | .na => .val "_other_"
    | .val s => if s ∈ top then .val s else .val "_other_")

/-- `pd.Categorical(series).codes`: codes index into the ascending sorted
distinct non-missing values; missing cells code to −1. -/
def encodeCat (cells : List CatCell) : List NumCell :=
  let cats := sortByLe (fun a b : String => decide (a ≤ b)) (uniqueFirst (catValsOf cells))
  cells.map (fun c =>
    match c with
    | .na => .val (-1)
    | .val s => .val ((cats.indexOf s : ℤ) : ℚ))

/-- Step 0 of `_auto_clean` on one column: replace ±inf in a numeric column
with NaN, logging one `convert_type` action when any was present. -/
def step0Col (c : Col) : Col × List CleaningAction :=
  match c.data with
  | .numeric cells =>
    let infCount := (cells.filter (fun x => x.isinf)).length
    if 0 < infCount then
      (⟨c.name, .numeric (cells.map (fun x => if x.isinf then .na else x))⟩,
       [{ action_type := "convert_type", column := c.name,
          description := s!"Replaced {infCount} extreme values in \x27{c.name}\x27 with empty cells",
          rows_affected := infCount }])
    else (c, [])
  | .categorical _ => (c, [])

/-- Step 0 of `_auto_clean` over all columns. -/
def autoCleanStep0 (df : DataFrame) : DataFrame × List CleaningAction :=
  let results := df.cols.map step0Col
  (⟨results.map Prod.fst⟩, (results.map Prod.snd).flatten)

/-- Keep the cells whose mask entry is `true` (row filter of
`dropna(subset=[target])`). -/
def maskCells {α : Type} (mask : List Bool) (cells : List α) : List α :=
  ((mask.zip cells).filter (fun p => p.1)).map Prod.snd

/-- Row filter applied to one column. -/
def maskCol (mask : List Bool) (c : Col) : Col :=
  match c.data with
  | .numeric cells => ⟨c.name, .numeric (maskCells mask cells)⟩
  | .categorical cells => ⟨c.name, .categorical (maskCells mask cells)⟩

/-- The keep-mask of a column: `true` where the cell is non-missing. -/
def ColData.keepMask : ColData → List Bool
  | .numeric cells => cells.map (fun c => !c.isna)
  | .categorical cells => cells.map (fun c => !c.isna)

/-- Step 1 of `_auto_clean`: drop the rows whose target value is missing,
logging one `remove_rows` action and — when more than 10% of the original
rows were dropped — the `rows_with_issues` warning. `origN` is `len(df)` of
the frame `_auto_clean` received. -/
def autoCleanStep1 (origN : ℕ) (df : DataFrame) (target_column : String) :
    DataFrame × List CleaningAction × List String :=
  match df.getCol target_column with
  | none => (df, [], [])
  | some tcol =>
    let target_missing := tcol.data.nmissing
    if 0 < target_missing then
      (⟨df.cols.map (maskCol tcol.data.keepMask)⟩,
       [{ action_type := "remove_rows", column := target_column,
          description := s!"Removed {target_missing} rows with missing target values",
          rows_affected := target_missing }],
       if (target_missing : ℚ) > (origN : ℚ) * (1 / 10) then
         [PLAIN_WARNINGS "rows_with_issues"]
       else [])
    else (df, [], [])

/-- Step 2 of `_auto_clean` on one feature column, with `n = len(cleaned)`
after step 1: drop single-valued or >90%-missing columns, fill missing values
(median / mode-or-"unknown"), collapse high-cardinality categoricals to their
top 99 values, and encode every categorical as integer codes. Returns the
kept column (or `none`), its actions, and its warnings. -/
def processFeatureCol (n : ℕ) (c : Col) : Option Col × List CleaningAction × List String :=
  let nUnique := c.data.nunique
  let nMissing := c.data.nmissing
  if nUnique ≤ 1 then
    (none,
     [{ action_type := "remove_column", column := c.name,
        description := s!"Removed \x27{c.name}\x27 - only one value", rows_affected := 0 }],
     [])
  else if (if 0 < n then decide ((nMissing : ℚ) / (n : ℚ) > 9 / 10) else true) then
    (none,
     [{ action_type := "remove_column", column := c.name,
        description := s!"Removed \x27{c.name}\x27 - too many empty cells", rows_affected := 0 }],
     [])
  else
    let filled : ColData × List CleaningAction :=
      if 0 < nMissing then
        match c.data with
        | .numeric cells =>
          (.numeric (cells.map (fun x => if x.isna then medianCells cells else x)),
           [{ action_type := "fill_missing", column := c.name,
              description := s!"Filled {nMissing} empty cells in \x27{c.name}\x27 with typical value",
              rows_affected := nMissing }])
        | .categorical cells =>
          (.categorical (cells.map (fun x => if x.isna then .val ((modeCat cells).getD "unknown") else x)),
           [{ action_type := "fill_missing", column := c.name,
              description := s!"Filled {nMissing} empty cells in \x27{c.name}\x27 with most common value",
              rows_affected := nMissing }])
      else (c.data, [])
    let collapsed : ColData × List CleaningAction × List String :=
      match filled.1 with
      | .categorical cells =>
        if HIGH_CARDINALITY_THRESHOLD < nUnique then
          (.categorical (collapseTop99 cells),
           [{ action_type := "encode_category", column := c.name,
              description := s!"Simplified \x27{c.name}\x27 by grouping rare values",
              rows_affected := 0 }],
           [PLAIN_WARNINGS "high_cardinality"])
        else (filled.1, [], [])
      | d => (d, [], [])
    let encoded : ColData × List CleaningAction :=
      match collapsed.1 with
      | .categorical cells =>
        (.numeric (encodeCat cells),
         [{ action_type := "encode_category", column := c.name,
            description := s!"Converted text in \x27{c.name}\x27 to numbers", rows_affected := 0 }])
      | d => (d, [])
    (some ⟨c.name, encoded.1⟩,
     filled.2 ++ collapsed.2.1 ++ encoded.2,
     collapsed.2.2)

/-- Step 2 of `_auto_clean` over the column list: target-named columns pass
through untouched, feature columns are processed in order; also counts the
dropped columns (`len(cols_to_drop)`). -/
def autoCleanStep2 (n : ℕ) (target_column : String) :
    List Col → List Col × List CleaningAction × List String × ℕ
  | [] => ([], [], [], 0)
  | c :: rest =>
    let tail := autoCleanStep2 n target_column rest
    if c.name = target_column then
      (c :: tail.1, tail.2)
    else
      match processFeatureCol n c with
      | (some c2, acts, warns) =>
        (c2 :: tail.1, acts ++ tail.2.1, warns ++ tail.2.2.1, tail.2.2.2)
      | (none, acts, warns) =>
        (tail.1, acts ++ tail.2.1, warns ++ tail.2.2.1, tail.2.2.2 + 1)

/-- The output bundle of `_auto_clean`: cleaned frame, actions, warnings, and
the `(message, progress)` pairs it reported. -/
structure CleanOut where
  df : DataFrame
  actions : List CleaningAction
  warnings : List String
  reports : List (String × ℚ)
deriving DecidableEq, Repr, Inhabited

/-- `InstantExporter._auto_clean`. -/
def _auto_clean (df : DataFrame) (target_column : String) : CleanOut :=
  let s0 := autoCleanStep0 df
  let s1 := autoCleanStep1 df.nrows s0.1 target_column
  let n := s1.1.nrows
  let totalCols := (s1.1.cols.filter (fun c => ¬ c.name = target_column)).length
  let s2 := autoCleanStep2 n target_column s1.1.cols
  let acts := s0.2 ++ s1.2.1 ++ s2.2.1
  let warns1 := s1.2.2 ++ s2.2.2.1 ++ (if 1 < s2.2.2.2 then [PLAIN_WARNINGS "column_removed"] else [])
  let warns2 :=
    if acts.any (fun a => a.action_type = "fill_missing") ∧
        PLAIN_WARNINGS "missing_values" ∉ warns1 then
      PLAIN_WARNINGS "missing_values" :: warns1
    else warns1
  let warns3 :=
    warns2 ++
      (if acts.any (fun a => a.action_type = "encode_category") ∧
          PLAIN_WARNINGS "text_encoded" ∉ warns2 then
        [PLAIN_WARNINGS "text_encoded"]
      else [])
  let warns4 := warns3 ++ (if n < MIN_ROWS_FOR_ASSESSMENT then [PLAIN_WARNINGS "small_dataset"] else [])
  { df := ⟨s2.1⟩,
    actions := acts,
    warnings := warns4,
    reports :=
      (List.range totalCols).map
        (fun i : ℕ => (s!"Processing column {i + 1}/{totalCols}", (i : ℚ) / (totalCols : ℚ))) ++
      [("Cleaning complete", 1)] }

/-- Outcome of the external TabPFN interaction, the pipeline's only external
collaborator: unavailable backend, an exception raised before `fit`, at
`fit`, or at `score`, or a successful raw score. -/
inductive TabOutcome where
  | unavailable
  | errorBeforeFit
  | errorAtFit
  | errorAtScore
  | success (score : ℚ)
deriving DecidableEq, Repr, Inhabited

/-- `InstantExporter._quick_tabpfn_check`: returns the 0–100 validation score
(`none` when unavailable or any exception occurred, all caught locally) and
the number of budget units consumed — one increment after `fit` returns, one
after `score` returns. -/
def _quick_tabpfn_check (outcome : TabOutcome) : Option ℚ × ℕ :=
  match outcome with
  | .unavailable => (none, 0)
  | .errorBeforeFit => (none, 0)
  | .errorAtFit => (none, 0)
  | .errorAtScore => (none, 1)
  | .success s => (some (s * 100), 2)

/-- The impure context of one `check_and_export` run: the external TabPFN
outcome and the wall-clock readings behind `processing_time_seconds`. -/
structure Env where
  tabOutcome : TabOutcome
  elapsedAtFailure : ℚ := 0
  elapsedTotal : ℚ := 0
deriving DecidableEq, Repr, Inhabited

/-- The critical-issue substrings of `_determine_readiness`. -/
def criticalWarnings : List String :=
  ["too many empty", "couldn\x27t be used", "need more data"]

/-- `InstantExporter._determine_readiness`. -/
def _determine_readiness (cleaned_df : DataFrame) (warnings : List String)
    (validation_score : Option ℚ) : Bool :=
  if cleaned_df.nrows < 10 then false
  else if cleaned_df.cols.length < 3 then false
  else if (match validation_score with
           | some v => decide (v < 50)
           | none => false) then false
  else if warnings.any (fun w => criticalWarnings.any (fun crit => strContains (pyLower w) crit)) then
    false
  else true

/-- `InstantExporter.check_and_export`: the four-phase pipeline, returning the
`ExportResult` together with the ordered `(message, progress)` pairs reported
to the progress callback. -/
def check_and_export (enable_tabpfn_validation : Bool) (max_api_calls : ℕ)
    (df : DataFrame) (target_column : String) (env : Env) :
    ExportResult × List (String × ℚ) :=
  let reports0 : List (String × ℚ) := [("Checking your data...", 0)]
  let validation_issues := _validate_basic df target_column
  if ¬ validation_issues.isEmpty then
    ({ is_ready := false,
       summary := validation_issues.headD "",
       warnings := validation_issues,
       original_row_count := df.nrows,
       original_col_count := df.cols.length,
       target_column := target_column,
       processing_time_seconds := env.elapsedAtFailure },
     reports0)
  else
    let co := _auto_clean df target_column
    let reports1 :=
      reports0 ++ [("Data structure looks good", 0.2), ("Auto-fixing common issues...", 0.25)] ++
        co.reports.map (fun r => (r.1, 0.3 + r.2 * 0.3)) ++ [("Data cleaned", 0.6)]
    let task_type := ((co.df.getCol target_column).map (fun c => detect_task_type c.data)).getD ""
    let phase3 : Option ℚ × ℕ × List (String × ℚ) :=
      if enable_tabpfn_validation ∧ 0 < max_api_calls then
        let check := _quick_tabpfn_check env.tabOutcome
        (check.1, check.2,
         [("Running quick quality check...", 0.7)] ++
           (if check.1.isSome then [("Quality check complete", 0.9)] else []))
      else (none, 0, [])
    let reports2 := reports1 ++ phase3.2.2 ++ [("Preparing export...", 0.95)]
    let is_ready := _determine_readiness co.df co.warnings phase3.1
    let summary :=
      if is_ready then
        if ¬ co.actions.isEmpty then PLAIN_SUMMARIES "ready_with_fixes"
        else PLAIN_SUMMARIES "ready"
      else PLAIN_SUMMARIES "too_messy"
    ({ is_ready := is_ready,
       summary := summary,
       warnings := co.warnings,
       cleaning_actions := co.actions,
       cleaned_df := some co.df,
       original_row_count := df.nrows,
       cleaned_row_count := co.df.nrows,
       original_col_count := df.cols.length,
       cleaned_col_count := co.df.cols.length,
       target_column := target_column,
       task_type := task_type,
       validation_score := phase3.1,
       processing_time_seconds := env.elapsedTotal,
       api_calls_used := phase3.2.1 },
     reports2 ++ [("Done!", 1)])

/-! ### Concrete inputs used by witnesses and counterexamples -/

/-- A 3-row school table used by the C1 witness. -/
def gbWitnessTable : GTable :=
  ⟨[⟨"school", [some "A", some "B", some "C"]⟩,
    ⟨"category", [some "high", some "high", some "low"]⟩]⟩

/-- The L3 dataset built from `gbWitnessTable`. -/
def gbWitnessL3 : Level3Dataset :=
  (build_l2_to_l3_graph gbWitnessTable "category" (some "school") "belongs_to" true).toOption.getD default

/-- A 5-row frame with a valid target (scenario E of the spec). -/
def wDf5 : DataFrame :=
  ⟨[⟨"t", .numeric [.val 1, .val 2, .val 1, .val 2, .val 1]⟩,
    ⟨"a", .numeric [.val 1, .val 2, .val 3, .val 4, .val 5]⟩]⟩

/-- A 10-row frame passing validation, with a missing target value and a
missing categorical cell. -/
def wDfA : DataFrame :=
  ⟨[⟨"a", .numeric [.val 1, .val 2, .val 3, .val 4, .val 5, .val 6, .val 7, .val 8, .val 9, .val 10]⟩,
    ⟨"b", .categorical [.val "x", .val "y", .na, .val "x", .val "y", .val "x", .val "y", .val "x", .val "y", .val "x"]⟩,
    ⟨"t", .numeric [.val 0, .val 1, .val 0, .val 1, .val 0, .val 1, .val 0, .val 1, .val 0, .na]⟩]⟩

/-- A 12-row all-clean frame (no missing values anywhere). -/
def wDfB : DataFrame :=
  ⟨[⟨"x", .numeric [.val 1, .val 2, .val 3, .val 4, .val 5, .val 6, .val 7, .val 8, .val 9, .val 10, .val 11, .val 12]⟩,
    ⟨"y", .numeric [.val 5, .val 4, .val 5, .val 4, .val 5, .val 4, .val 5, .val 4, .val 5, .val 4, .val 5, .val 4]⟩,
    ⟨"t", .numeric [.val 0, .val 1, .val 0, .val 1, .val 0, .val 1, .val 0, .val 1, .val 0, .val 1, .val 0, .val 1]⟩]⟩

/-- An environment whose external check is unavailable. -/
def wEnvOff : Env := ⟨.unavailable, 0, 0⟩

/-- An environment whose external check succeeds with raw score 0.6. -/
def wEnvOk : Env := ⟨.success (6 / 10), 0, 7 / 2⟩

/-! ### Theorems -/

/-- C3: unfolding an L0 datum aggregated from a vector `v` returns exactly
`v` (same values, same order, same name), annotated with the original scalar,
the aggregation method and the original length; and unfolding the same datum
twice yields identical results. -/
theorem unfold_of_aggregate_roundtrip (v : Level1Dataset) (method : String) :
    unfold_l0_to_l1 (aggregate_l1_to_l0 v method) true =
      .ok { data := v.data, name := v.name,
            metadata := some
              [("unfolded_from", optQToString (aggValue method v.data)),
               ("aggregation_method", method),
               ("original_length", toString v.data.length),
               ("source_operation", s!"Unfolded from L0 datum (aggregation: {method})")] } ∧
    unfold_l0_to_l1 (aggregate_l1_to_l0 v method) =
      unfold_l0_to_l1 (aggregate_l1_to_l0 v method) := by
  constructor
  · cases v
    rfl
  · rfl

/-- C4: unfolding a datum with no parent reference fails with
`NoParentError`, and unfolding a datum whose parent reference exists but
whose payload is null fails with the same error kind (for any setting of
`validate_parent`). -/
theorem unfold_no_parent_fails :
    (∀ (x : Option ℚ) (m : String), ∃ msg,
      unfold_l0_to_l1 ⟨x, m, false, none⟩ true = .error (.noParentError msg)) ∧
    (∀ (x : Option ℚ) (m : String) (vp : Bool), ∃ msg,
      unfold_l0_to_l1 ⟨x, m, true, none⟩ vp = .error (.noParentError msg)) := by
  constructor
  · intro x m
    exact ⟨_, rfl⟩
  · intro x m vp
    refine ⟨"parent_data is None but validation was disabled", ?_⟩
    simp [unfold_l0_to_l1]

/-- C1: with orphan validation enabled, a successfully returned L3 graph has
every node of degree ≥ 1; and whenever the constructed graph would contain a
degree-0 node, `build_l2_to_l3_graph` instead fails with `OrphanNodeError`
carrying exactly the offending node ids. -/
theorem build_graph_no_orphans (table : GTable) (ec : String) (vc : Option String)
    (rt : String) :
    (∀ l3, build_l2_to_l3_graph table ec vc rt true = .ok l3 →
      ∀ v ∈ l3.graph.nodeIds, 1 ≤ l3.graph.degree v) ∧
    (∀ G, buildGraphCore table ec vc rt = some G → validate_no_orphan_nodes G ≠ [] →
      build_l2_to_l3_graph table ec vc rt true =
        .error (.orphanNodeError (validate_no_orphan_nodes G)
          (s!"Graph construction would create {(validate_no_orphan_nodes G).length} orphan node(s).\\n" ++
           "Design Constraint 1: All nodes must have at least one edge."))) := by
  constructor
  · intro l3 hok v hv
    unfold build_l2_to_l3_graph at hok
    cases hcore : buildGraphCore table ec vc rt with
    | none => rw [hcore] at hok; exact absurd hok (by simp)
    | some G =>
      rw [hcore] at hok
      by_cases horph : (validate_no_orphan_nodes G).isEmpty
      · simp only [horph, Bool.not_true, and_false, if_false, true_and, not_true_eq_false,
          if_neg, Except.ok.injEq, reduceCtorEq] at hok
        have hl3 : l3.graph = G := by rw [← hok]
        rw [hl3] at hv ⊢
        have hempty : validate_no_orphan_nodes G = [] := by
          simpa [List.isEmpty_iff] using horph
        have hall := List.filter_eq_nil_iff.mp hempty v hv
        simp only [decide_eq_true_eq] at hall
        omega
      · simp [horph] at hok
  · intro G hcore hne
    unfold build_l2_to_l3_graph
    rw [hcore]
    have hfalse : (validate_no_orphan_nodes G).isEmpty = false := by
      simpa [List.isEmpty_iff] using hne
    simp [hfalse]

/-- C1 witness: the concrete school table builds successfully and its first
row node has degree ≥ 1. -/
theorem build_graph_no_orphans_witness :
    build_l2_to_l3_graph gbWitnessTable "category" (some "school") "belongs_to" true =
      .ok gbWitnessL3 ∧ 1 ≤ gbWitnessL3.graph.degree (.rowId 0) := by
  refine ⟨by rfl, ?_⟩
  exact (build_graph_no_orphans gbWitnessTable "category" (some "school") "belongs_to").1
    gbWitnessL3 (by rfl) (.rowId 0) (by decide)

/-- Enum name lookup inverts the enum name. -/
theorem complexityLevelOfName_pyName (l : ComplexityLevel) :
    complexityLevelOfName l.pyName = some l := by
  cases l <;> rfl

/-- `from_dict` inverts `to_dict` on any operation record. -/
theorem from_dict_to_dict (r : SourceReference) :
    SourceReference.from_dict r.to_dict = some r := by
  cases r
  simp [SourceReference.from_dict, SourceReference.to_dict, complexityLevelOfName_pyName]

/-- Accumulator form of the `mapM from_dict` inversion. -/
theorem mapM_loop_from_dict (ops : List SourceReference) :
    ∀ acc, List.mapM.loop SourceReference.from_dict (ops.map SourceReference.to_dict) acc =
      some (acc.reverse ++ ops) := by
  induction ops with
  | nil => intro acc; simp [List.mapM.loop]
  | cons r t ih =>
    intro acc
    simp only [List.map_cons, List.mapM.loop, from_dict_to_dict, Option.bind_eq_bind,
      Option.some_bind, ih]
    simp

/-- `mapM from_dict` inverts `map to_dict` on any operation list. -/
theorem mapM_from_dict_map_to_dict (ops : List SourceReference) :
    (ops.map SourceReference.to_dict).mapM SourceReference.from_dict = some ops := by
  simpa using mapM_loop_from_dict ops []

/-- C9: exporting a lineage to its durable JSON document and loading it back
succeeds and reproduces identical `history()` output, field for field. -/
theorem lineage_export_load_roundtrip (l : DataLineage) :
    ∃ l₂, DataLineage.load l.export = some l₂ ∧ l₂.get_history = l.get_history := by
  refine ⟨⟨l.operations, l.metadata, l.created_at⟩, ?_, rfl⟩
  simp only [DataLineage.load, DataLineage.export, DataLineage.get_history]
  rw [show (l.operations.map SourceReference.to_dict).mapM SourceReference.from_dict =
      some l.operations from mapM_from_dict_map_to_dict l.operations]
  rfl

/-- `find?` with a default equals the head of the filtered list. -/
theorem find?_getD_eq_filter_headD {α : Type} (p : α → Bool) (l : List α) (d : α) :
    (l.find? p).getD d = (l.filter p).headD d := by
  induction l with
  | nil => rfl
  | cons a t ih =>
    cases h : p a
    · simp only [List.find?_cons, List.filter_cons, h, if_false, Bool.false_eq_true]
      exact ih
    · simp only [List.find?_cons, List.filter_cons, h, if_true]
      rfl

/-- C6 counterexample: on the series `[1, 2, 3]` with domains
`["high", "low"]` and threshold `0`, the code assigns the boundary value `2`
(equal to `median + threshold·std`, not strictly above it) to `"high"`, while
the claim's strict binning predicts `"medium"`; and with the single domain
`["alpha"]` and threshold `1`, the code's middle fallback is the literal
`"medium"`, not the claim's middle-index domain. -/
theorem categorize_numeric_strict_counterexample :
    _categorize_numeric_values [some 1, some 2, some 3] ["high", "low"] 0 =
      ["low", "high", "high"] ∧
    claimCategorizeNumericStrict [some 1, some 2, some 3] ["high", "low"] 0 =
      ["low", "medium", "high"] ∧
    _categorize_numeric_values [some 1, some 2, some 3] ["alpha"] 1 =
      ["alpha", "medium", "alpha"] ∧
    claimCategorizeNumericStrict [some 1, some 2, some 3] ["alpha"] 1 =
      ["alpha", "alpha", "alpha"] ∧
    (["low", "high", "high"] : List String) ≠ ["low", "medium", "high"] ∧
    (["alpha", "medium", "alpha"] : List String) ≠ ["alpha", "alpha", "alpha"] := by
  have hvar : sampleVarQ [1, 2, 3] = some 1 := by norm_num [sampleVarQ]
  have hmed : medianQ [1, 2, 3] = some 2 := by decide
  refine ⟨?_, ?_, ?_, ?_, by decide, by decide⟩
  · have hH : highDomainOf ["high", "low"] = "high" := by decide
    have hL : lowDomainOf ["high", "low"] = "low" := by decide
    have hM : midDomainOf ["high", "low"] = "medium" := by decide
    simp only [_categorize_numeric_values, List.filterMap_cons, id_eq, List.filterMap_nil]
    rw [hmed, hvar]
    simp only [List.map_cons, List.map_nil]
    norm_num [geMulSqrt, hH, hL, hM]
  · have hH : (["high", "low"].filter (fun d => strContains (pyLower d) "high")).headD
        (["high", "low"].headD "") = "high" := by decide
    have hL : (["high", "low"].filter (fun d => strContains (pyLower d) "low")).headD
        (["high", "low"].getLastD "") = "low" := by decide
    have hM : (["high", "low"].filter
          (fun d => strContains (pyLower d) "mid" || strContains (pyLower d) "medium")).headD
        (if (["high", "low"] : List String).length = 2 then "medium"
         else ["high", "low"].getD (["high", "low"].length / 2) "") = "medium" := by decide
    simp only [claimCategorizeNumericStrict, List.filterMap_cons, id_eq, List.filterMap_nil]
    rw [hmed, hvar]
    simp only [List.map_cons, List.map_nil]
    norm_num [gtMulSqrt, hH, hL, hM]
    all_goals decide
  · have hH : highDomainOf ["alpha"] = "alpha" := by decide
    have hL : lowDomainOf ["alpha"] = "alpha" := by decide
    have hM : midDomainOf ["alpha"] = "medium" := by decide
    simp only [_categorize_numeric_values, List.filterMap_cons, id_eq, List.filterMap_nil]
    rw [hmed, hvar]
    simp only [List.map_cons, List.map_nil]
    norm_num [geMulSqrt, hH, hL, hM]
  · have hH : (["alpha"].filter (fun d => strContains (pyLower d) "high")).headD
        (["alpha"].headD "") = "alpha" := by decide
    have hL : (["alpha"].filter (fun d => strContains (pyLower d) "low")).headD
        (["alpha"].getLastD "") = "alpha" := by decide
    have hM : (["alpha"].filter
          (fun d => strContains (pyLower d) "mid" || strContains (pyLower d) "medium")).headD
        (if (["alpha"] : List String).length = 2 then "medium"
         else ["alpha"].getD (["alpha"].length / 2) "") = "alpha" := by decide
    simp only [claimCategorizeNumericStrict, List.filterMap_cons, id_eq, List.filterMap_nil]
    rw [hmed, hvar]
    simp only [List.map_cons, List.map_nil]
    norm_num [gtMulSqrt, hH, hL, hM]
    all_goals decide

/-- C6 as amended: the numeric branch bins with inclusive bounds — a
non-missing value at or above `median + threshold·std` goes to the first
domain containing "high" (else the first domain); otherwise, at or below
`median − threshold·std`, to the first domain containing "low" (else the last
domain); every other value to a domain containing "mid"/"medium" (else the
middle-index domain when more than two domains exist, else the literal
"medium"); missing values get "unknown". -/
theorem categorize_numeric_amended (series : List SCell) (domains : List String)
    (threshold : ℚ) :
    _categorize_numeric_values series domains threshold =
      claimCategorizeNumericAmended series domains threshold := by
  unfold _categorize_numeric_values claimCategorizeNumericAmended
  refine List.map_congr_left ?_
  intro c _
  rcases c with _ | v
  · rfl
  · cases hm : medianQ (series.filterMap id) <;>
      cases hs : sampleVarQ (series.filterMap id) <;>
      simp only [highDomainOf, lowDomainOf, midDomainOf, find?_getD_eq_filter_headD]

/-- C10: with TabPFN validation disabled, `check_and_export` is deterministic:
two runs over equal inputs in different impure contexts (external outcomes,
wall-clock readings) agree on every field except the wall-clock
`processing_time_seconds`. -/
theorem check_and_export_deterministic (df : DataFrame) (target : String)
    (max_api_calls : ℕ) (env₁ env₂ : Env) :
    ((check_and_export false max_api_calls df target env₁).1.is_ready =
      (check_and_export false max_api_calls df target env₂).1.is_ready) ∧
    ((check_and_export false max_api_calls df target env₁).1.summary =
      (check_and_export false max_api_calls df target env₂).1.summary) ∧
    ((check_and_export false max_api_calls df target env₁).1.warnings =
      (check_and_export false max_api_calls df target env₂).1.warnings) ∧
    ((check_and_export false max_api_calls df target env₁).1.cleaning_actions =
      (check_and_export false max_api_calls df target env₂).1.cleaning_actions) ∧
    ((check_and_export false max_api_calls df target env₁).1.cleaned_df =
      (check_and_export false max_api_calls df target env₂).1.cleaned_df) ∧
    ((check_and_export false max_api_calls df target env₁).1.api_calls_used =
      (check_and_export false max_api_calls df target env₂).1.api_calls_used) := by
  unfold check_and_export
  by_cases hv : (_validate_basic df target).isEmpty
  · simp [hv]
  · simp [hv]

/-- Shape of the result on the validation-failure path. -/
theorem check_and_export_validate_fail (et : Bool) (ma : ℕ) (df : DataFrame)
    (target : String) (env : Env) (h : (_validate_basic df target).isEmpty = false) :
    (check_and_export et ma df target env).1 =
      { is_ready := false,
        summary := (_validate_basic df target).headD "",
        warnings := _validate_basic df target,
        original_row_count := df.nrows,
        original_col_count := df.cols.length,
        target_column := target,
        processing_time_seconds := env.elapsedAtFailure } := by
  simp [check_and_export, h]

/-- A failed check makes `_validate_basic` return a non-empty issue list. -/
theorem validate_basic_ne_of_cond (df : DataFrame) (target : String)
    (hcond : target ∉ df.colNames ∨ df.nrows < 10 ∨
      (∃ c, df.getCol target = some c ∧ c.data.nunique < 2) ∨
      (df.cols.filter (fun c => ¬ c.name = target)).isEmpty) :
    (_validate_basic df target).isEmpty = false := by
  unfold _validate_basic
  split_ifs with h1 h2 h3 h4 <;> simp_all
  rcases hcond with ⟨c, hc, hcu⟩ | h
  · rw [hc] at h3
    simp at h3
    omega
  · obtain ⟨x, hx, hxn⟩ := h4
    exact hxn (h x hx)

/-- On a frame with a present target and exactly 5 rows, validation returns
precisely the too-small summary. -/
theorem validate_basic_five_rows (df : DataFrame) (target : String)
    (h1 : target ∈ df.colNames) (h5 : df.nrows = 5) :
    _validate_basic df target = [PLAIN_SUMMARIES "too_small"] := by
  unfold _validate_basic
  rw [if_neg (by simpa using h1), if_pos (by omega)]

/-- C5: when the target column is missing, the frame has fewer than 10 rows,
the target has fewer than 2 distinct non-null values, or no non-target column
exists, `check_and_export` returns `is_ready = false` immediately with no
cleaning actions and no external calls; in particular a 5-row frame with a
present target yields the too-few-rows summary. -/
theorem check_and_export_validate_short_circuit :
    (∀ (df : DataFrame) (target : String) (et : Bool) (ma : ℕ) (env : Env),
      (target ∉ df.colNames ∨ df.nrows < 10 ∨
        (∃ c, df.getCol target = some c ∧ c.data.nunique < 2) ∨
        (df.cols.filter (fun c => ¬ c.name = target)).isEmpty) →
      (check_and_export et ma df target env).1.is_ready = false ∧
      (check_and_export et ma df target env).1.cleaning_actions = [] ∧
      (check_and_export et ma df target env).1.api_calls_used = 0) ∧
    (∀ (df : DataFrame) (target : String) (et : Bool) (ma : ℕ) (env : Env),
      target ∈ df.colNames → df.nrows = 5 →
      (check_and_export et ma df target env).1.is_ready = false ∧
      (check_and_export et ma df target env).1.summary = PLAIN_SUMMARIES "too_small" ∧
      (check_and_export et ma df target env).1.cleaning_actions = [] ∧
      (check_and_export et ma df target env).1.api_calls_used = 0) := by
  constructor
  · intro df target et ma env hcond
    rw [check_and_export_validate_fail et ma df target env
      (validate_basic_ne_of_cond df target hcond)]
    exact ⟨rfl, rfl, rfl⟩
  · intro df target et ma env h1 h5
    have hv := validate_basic_five_rows df target h1 h5
    rw [check_and_export_validate_fail et ma df target env (by rw [hv]; rfl), hv]
    exact ⟨rfl, rfl, rfl, rfl⟩

/-- C5 witness: the concrete 5-row frame `wDf5` with target `"t"`. -/
theorem check_and_export_validate_short_circuit_witness :
    ("t" ∈ wDf5.colNames) ∧ wDf5.nrows = 5 ∧
    (check_and_export true 5 wDf5 "t" wEnvOff).1.is_ready = false ∧
    (check_and_export true 5 wDf5 "t" wEnvOff).1.summary = PLAIN_SUMMARIES "too_small" ∧
    (check_and_export true 5 wDf5 "t" wEnvOff).1.cleaning_actions = [] ∧
    (check_and_export true 5 wDf5 "t" wEnvOff).1.api_calls_used = 0 := by
  refine ⟨by decide, by decide, ?_⟩
  have h := check_and_export_validate_short_circuit.2 wDf5 "t" true 5 wEnvOff
    (by decide) (by decide)
  exact ⟨h.1, h.2.1, h.2.2.1, h.2.2.2⟩

/-- C2: the call-budget contract fails at `max_api_calls = 1`: on a valid
10-row frame with the external check available and succeeding, the run
consumes and reports 2 external calls, exceeding the configured maximum of 1
(the guard `api_calls_used < max_api_calls` admits one more two-call batch). -/
theorem api_call_budget_exceeded_at_one :
    (check_and_export true 1 wDfA "t" wEnvOk).1.api_calls_used = 2 ∧
    ¬ ((check_and_export true 1 wDfA "t" wEnvOk).1.api_calls_used ≤ 1) := by
  exact ⟨rfl, by decide⟩

/-- C8 counterexample: a run that fails validation (5-row frame) reports the
single pair `("Checking your data...", 0.0)`, so its last reported fraction is
0.0, not 1.0. -/
theorem progress_last_not_one_counterexample :
    (check_and_export true 5 wDf5 "t" wEnvOff).2 = [("Checking your data...", 0)] ∧
    (((check_and_export true 5 wDf5 "t" wEnvOff).2).map Prod.snd).getLast? = some 0 ∧
    (0 : ℚ) ≠ 1 := by
  refine ⟨by decide, by decide, by norm_num⟩

/-- A range fraction is nonnegative. -/
theorem div_range_nonneg (i k : ℕ) : (0:ℚ) ≤ (i:ℚ) / (k:ℚ) :=
  div_nonneg (by positivity) (by positivity)

/-- A range fraction `i/k` with `i < k` is at most 1. -/
theorem div_range_le_one (i k : ℕ) (h : i < k) : (i:ℚ) / (k:ℚ) ≤ 1 := by
  rw [div_le_one (by exact_mod_cast Nat.zero_lt_of_lt h)]
  exact_mod_cast Nat.le_of_lt h

/-- Two sorted blocks separated by a midpoint value concatenate sorted. -/
theorem pairwise_le_append (l1 l2 : List ℚ) (m : ℚ)
    (h1 : List.Pairwise (· ≤ ·) l1) (h2 : List.Pairwise (· ≤ ·) l2)
    (hl : ∀ a ∈ l1, a ≤ m) (hr : ∀ b ∈ l2, m ≤ b) :
    List.Pairwise (· ≤ ·) (l1 ++ l2) :=
  List.pairwise_append.mpr ⟨h1, h2, fun a ha b hb => (hl a ha).trans (hr b hb)⟩

/-- Pointwise facts transport over concatenation. -/
theorem forall_mem_append_of {P : ℚ → Prop} {l1 l2 : List ℚ}
    (h1 : ∀ a ∈ l1, P a) (h2 : ∀ a ∈ l2, P a) : ∀ a ∈ l1 ++ l2, P a := by
  intro a ha
  rcases List.mem_append.mp ha with h | h
  · exact h1 a h
  · exact h2 a h

/-- Skeleton of a successful run's progress sequence: bounds, monotone
chain, first fraction 0 and last fraction 1, for any auto-clean block `A`
(within [0.3, 0.6]) and external-check block `T` (within [0.7, 0.9]). -/
theorem progress_spine (A T : List ℚ)
    (hA : List.Pairwise (· ≤ ·) A) (hAb : ∀ p ∈ A, (3/10 : ℚ) ≤ p ∧ p ≤ 3/5)
    (hT : List.Pairwise (· ≤ ·) T) (hTb : ∀ p ∈ T, (7/10 : ℚ) ≤ p ∧ p ≤ 9/10) :
    (∀ p ∈ ([0, 0.2, 0.25] : List ℚ) ++ A ++ [0.6] ++ T ++ [0.95, 1], 0 ≤ p ∧ p ≤ 1) ∧
    List.Chain' (· ≤ ·) (([0, 0.2, 0.25] : List ℚ) ++ A ++ [0.6] ++ T ++ [0.95, 1]) ∧
    (([0, 0.2, 0.25] : List ℚ) ++ A ++ [0.6] ++ T ++ [0.95, 1]).head? = some 0 ∧
    (([0, 0.2, 0.25] : List ℚ) ++ A ++ [0.6] ++ T ++ [0.95, 1]).getLast? = some 1 := by
  have b1 : ∀ p ∈ ([0, 0.2, 0.25] : List ℚ), 0 ≤ p ∧ p ≤ 1 := by
    intro p hp; fin_cases hp <;> norm_num
  have bA : ∀ p ∈ A, 0 ≤ p ∧ p ≤ 1 := by
    intro p hp; rcases hAb p hp with ⟨x, y⟩; constructor <;> linarith
  have b6 : ∀ p ∈ ([0.6] : List ℚ), 0 ≤ p ∧ p ≤ 1 := by
    intro p hp; fin_cases hp <;> norm_num
  have bT : ∀ p ∈ T, 0 ≤ p ∧ p ≤ 1 := by
    intro p hp; rcases hTb p hp with ⟨x, y⟩; constructor <;> linarith
  have b9 : ∀ p ∈ ([0.95, 1] : List ℚ), 0 ≤ p ∧ p ≤ 1 := by
    intro p hp; fin_cases hp <;> norm_num
  refine ⟨forall_mem_append_of (forall_mem_append_of (forall_mem_append_of
    (forall_mem_append_of b1 bA) b6) bT) b9, ?_, by rfl,
    by rw [List.getLast?_append]; rfl⟩
  apply List.Pairwise.chain'
  have p1 : List.Pairwise (· ≤ ·) ([0, 0.2, 0.25] : List ℚ) := by
    norm_num [List.pairwise_cons]
  have p2 : List.Pairwise (· ≤ ·) (([0, 0.2, 0.25] : List ℚ) ++ A) :=
    pairwise_le_append _ _ (3/10) p1 hA
      (by intro a ha; fin_cases ha <;> norm_num) (fun b hb => (hAb b hb).1)
  have up2 : ∀ a ∈ ([0, 0.2, 0.25] : List ℚ) ++ A, a ≤ 3/5 :=
    forall_mem_append_of (by intro a ha; fin_cases ha <;> norm_num)
      (fun a ha => (hAb a ha).2)
  have p3 : List.Pairwise (· ≤ ·) (([0, 0.2, 0.25] : List ℚ) ++ A ++ [0.6]) :=
    pairwise_le_append _ _ (3/5) p2 (by norm_num [List.pairwise_cons]) up2
      (by intro b hb; fin_cases hb <;> norm_num)
  have up3 : ∀ a ∈ ([0, 0.2, 0.25] : List ℚ) ++ A ++ [0.6], a ≤ 7/10 :=
    forall_mem_append_of (fun a ha => (up2 a ha).trans (by norm_num))
      (by intro a ha; fin_cases ha <;> norm_num)
  have p4 : List.Pairwise (· ≤ ·) (([0, 0.2, 0.25] : List ℚ) ++ A ++ [0.6] ++ T) :=
    pairwise_le_append _ _ (7/10) p3 hT up3 (fun b hb => (hTb b hb).1)
  have up4 : ∀ a ∈ ([0, 0.2, 0.25] : List ℚ) ++ A ++ [0.6] ++ T, a ≤ 19/20 :=
    forall_mem_append_of (fun a ha => (up3 a ha).trans (by norm_num))
      (fun a ha => (hTb a ha).2.trans (by norm_num))
  exact pairwise_le_append _ _ (19/20) p4 (by norm_num [List.pairwise_cons]) up4
    (by intro b hb; fin_cases hb <;> norm_num)

/-- A monotone map over `range` is pairwise ordered. -/
theorem pairwise_map_range_mono {β : Type} [Preorder β] (F : ℕ → β)
    (hF : ∀ a b, a < b → F a ≤ F b) (k : ℕ) :
    List.Pairwise (· ≤ ·) ((List.range k).map F) :=
  List.Pairwise.map F hF (List.pairwise_lt_range k)

/-- The reports of `_auto_clean`: one per feature column at fraction
`i/totalCols`, then the completion report at 1. -/
theorem auto_clean_reports_shape (df : DataFrame) (target : String) :
    ∃ k : ℕ, (_auto_clean df target).reports =
      (List.range k).map (fun i : ℕ => (s!"Processing column {i + 1}/{k}", (i : ℚ) / (k : ℚ))) ++
        [("Cleaning complete", 1)] :=
  by
  simp only [_auto_clean]
  exact ⟨((autoCleanStep1 df.nrows (autoCleanStep0 df).1 target).1.cols.filter
    (fun c : Col => ¬ c.name = target)).length, rfl⟩

/-- The auto-clean reports, rescaled by `0.3 + p*0.3`, are sorted and lie
within [0.3, 0.6]. -/
theorem mapped_clean_progress_props (df : DataFrame) (target : String) :
    List.Pairwise (· ≤ ·) ((_auto_clean df target).reports.map (fun r => 0.3 + r.2 * 0.3)) ∧
    ∀ p ∈ (_auto_clean df target).reports.map (fun r => 0.3 + r.2 * 0.3),
      (3/10 : ℚ) ≤ p ∧ p ≤ 3/5 := by
  obtain ⟨k, hk⟩ := auto_clean_reports_shape df target
  rw [hk]
  simp only [List.map_append, List.map_map, List.map_cons, List.map_nil]
  constructor
  · refine pairwise_le_append _ _ (3/5) ?_ (by norm_num [List.pairwise_cons]) ?_
      (by intro b hb; fin_cases hb; norm_num)
    · refine pairwise_map_range_mono _ ?_ k
      intro a b hab
      simp only [Function.comp]
      rcases Nat.eq_zero_or_pos k with hk | hk
      · simp [hk]
      · have hq : (0:ℚ) < (k:ℚ) := by exact_mod_cast hk
        have hab2 : (a:ℚ) ≤ (b:ℚ) := by exact_mod_cast Nat.le_of_lt hab
        have := div_le_div_of_nonneg_right hab2 (le_of_lt hq)
        linarith
    · intro a ha
      simp only [List.mem_map, List.mem_range, Function.comp] at ha
      obtain ⟨i, hi, rfl⟩ := ha
      have h1 := div_range_nonneg i k
      have h2 := div_range_le_one i k hi
      linarith
  · intro p hp
    rcases List.mem_append.mp hp with h | h
    · simp only [List.mem_map, List.mem_range, Function.comp] at h
      obtain ⟨i, hi, rfl⟩ := h
      have h1 := div_range_nonneg i k
      have h2 := div_range_le_one i k hi
      constructor <;> linarith
    · simp only [List.mem_singleton] at h
      subst h
      norm_num

/-- The external-check phase reports are sorted and lie within
[0.7, 0.9]. -/
theorem tab_progress_props (et : Bool) (ma : ℕ) (q : Option ℚ) :
    List.Pairwise (· ≤ ·) (((if et = true ∧ 0 < ma then
      ([("Running quick quality check...", (0.7:ℚ))] ++
        (if q.isSome then [("Quality check complete", 0.9)] else [])) else []).map Prod.snd)) ∧
    ∀ p ∈ ((if et = true ∧ 0 < ma then
      ([("Running quick quality check...", (0.7:ℚ))] ++
        (if q.isSome then [("Quality check complete", 0.9)] else [])) else []) : List (String × ℚ)).map Prod.snd,
      (7/10:ℚ) ≤ p ∧ p ≤ 9/10 := by
  split_ifs <;> constructor <;>
    first
      | norm_num [List.pairwise_cons]
      | (intro p hp; fin_cases hp <;> norm_num)

/-- C8 as amended: every reported progress fraction lies in [0.0, 1.0], the
sequence is monotonically non-decreasing, the first reported fraction is 0.0,
and for runs that pass basic validation the last is 1.0; a run that fails
validation reports only the single fraction 0.0. -/
theorem check_and_export_progress_amended (df : DataFrame) (target : String) (et : Bool) (ma : ℕ) (env : Env) :
    (∀ p ∈ ((check_and_export et ma df target env).2).map Prod.snd, 0 ≤ p ∧ p ≤ 1) ∧
    List.Chain' (· ≤ ·) (((check_and_export et ma df target env).2).map Prod.snd) ∧
    (((check_and_export et ma df target env).2).map Prod.snd).head? = some 0 ∧
    (_validate_basic df target = [] →
      (((check_and_export et ma df target env).2).map Prod.snd).getLast? = some 1) := by
  by_cases hv : (_validate_basic df target).isEmpty
  · have h2 : ((check_and_export et ma df target env).2).map Prod.snd =
        ([0, 0.2, 0.25] : List ℚ) ++
          (_auto_clean df target).reports.map (fun r => 0.3 + r.2 * 0.3) ++ [0.6] ++
          (((if et = true ∧ 0 < ma then
            ([("Running quick quality check...", (0.7:ℚ))] ++
              (if (_quick_tabpfn_check env.tabOutcome).1.isSome then
                [("Quality check complete", 0.9)] else [])) else []).map Prod.snd)) ++
          [0.95, 1] := by
      simp only [check_and_export, hv, Bool.not_true, Bool.false_eq_true, not_false_eq_true,
        if_true, if_false, ite_true, ite_false]
      split_ifs <;> simp_all [Function.comp]
    obtain ⟨hA, hAb⟩ := mapped_clean_progress_props df target
    obtain ⟨hT, hTb⟩ := tab_progress_props et ma (_quick_tabpfn_check env.tabOutcome).1
    have main := progress_spine _ _ hA hAb hT hTb
    rw [h2]
    exact ⟨main.1, main.2.1, main.2.2.1, fun _ => main.2.2.2⟩
  · have hbf : (_validate_basic df target).isEmpty = false := by
      simpa using hv
    have h2 : (check_and_export et ma df target env).2 = [("Checking your data...", 0)] := by
      simp [check_and_export, hbf]
    rw [h2]
    refine ⟨?_, by simp, by rfl, ?_⟩
    · intro p hp
      fin_cases hp
      norm_num
    · intro hval
      rw [hval] at hbf
      simp at hbf

/-- C8 witness: a successful run on the clean 12-row frame starts at fraction
0.0 and ends at 1.0. -/
theorem check_and_export_progress_amended_witness :
    (((check_and_export false 5 wDfB "t" wEnvOff).2).map Prod.snd).head? = some 0 ∧
    (((check_and_export false 5 wDfB "t" wEnvOff).2).map Prod.snd).getLast? = some 1 := by
  have h := check_and_export_progress_amended wDfB "t" false 5 wEnvOff
  exact ⟨h.2.2.1, h.2.2.2 (by decide)⟩

theorem mem_maskCells {α : Type} (m : List Bool) (cells : List α) :
    ∀ x ∈ maskCells m cells, x ∈ cells := by
  intro x hx
  simp only [maskCells, List.mem_map, List.mem_filter] at hx
  obtain ⟨⟨b, y⟩, ⟨hmem, _⟩, rfl⟩ := hx
  exact (List.of_mem_zip hmem).2

theorem maskCells_keep_not_p {α : Type} (p : α → Bool) (cells : List α) :
    ∀ x ∈ maskCells (cells.map (fun c => !p c)) cells, p x = false := by
  induction cells with
  | nil => intro x hx; simp [maskCells] at hx
  | cons c t ih =>
    intro x hx
    by_cases hp : p c
    · have hstep : maskCells ((c :: t).map (fun c => !p c)) (c :: t) =
          maskCells (t.map (fun c => !p c)) t := by
        simp [maskCells, hp]
      rw [hstep] at hx
      exact ih x hx
    · have hstep : maskCells ((c :: t).map (fun c => !p c)) (c :: t) =
          c :: maskCells (t.map (fun c => !p c)) t := by
        simp [maskCells, hp]
      rw [hstep] at hx
      rcases List.mem_cons.mp hx with rfl | hmem
      · simpa using hp
      · exact ih x hmem

theorem insertLe_perm {α : Type} (le : α → α → Bool) (a : α) (l : List α) :
    (insertLe le a l).Perm (a :: l) := by
  induction l with
  | nil => rfl
  | cons b t ih =>
    by_cases h : le a b
    · simp [insertLe, h]
    · simp only [insertLe, h, if_false, Bool.false_eq_true]
      exact (ih.cons b).trans (List.Perm.swap a b t)

theorem sortByLe_perm {α : Type} (le : α → α → Bool) (l : List α) :
    (sortByLe le l).Perm l := by
  induction l with
  | nil => rfl
  | cons a t ih =>
    exact (insertLe_perm le a (sortByLe le t)).trans (ih.cons a)

theorem maskCells_length_eq {α : Type} (m : List Bool) (cells : List α)
    (h : cells.length = m.length) :
    (maskCells m cells).length = (m.filter id).length := by
  induction m generalizing cells with
  | nil =>
    cases cells with
    | nil => rfl
    | cons c t => simp at h
  | cons b mt ih =>
    cases cells with
    | nil => simp at h
    | cons c t =>
      simp only [List.length_cons, Nat.succ.injEq] at h
      by_cases hb : b
      · subst hb
        have h1 : maskCells (true :: mt) (c :: t) = c :: maskCells mt t := by
          simp [maskCells]
        rw [h1, List.filter_cons]
        simp [ih t h]
      · have hb2 : b = false := by simpa using hb
        subst hb2
        have h1 : maskCells (false :: mt) (c :: t) = maskCells mt t := by
          simp [maskCells]
        rw [h1, List.filter_cons]
        simp [ih t h]

theorem uniqueFirst_aux {α : Type} [DecidableEq α] (l : List α) :
    ∀ acc : List α, acc.Nodup →
      (List.foldl (fun acc a => if a ∈ acc then acc else acc ++ [a]) acc l).Nodup ∧
      (∀ x, x ∈ List.foldl (fun acc a => if a ∈ acc then acc else acc ++ [a]) acc l ↔
        x ∈ acc ∨ x ∈ l) := by
  induction l with
  | nil => intro acc hacc; simp [hacc]
  | cons a t ih =>
    intro acc hacc
    simp only [List.foldl_cons]
    by_cases ha : a ∈ acc
    · rw [if_pos ha]
      obtain ⟨h1, h2⟩ := ih acc hacc
      refine ⟨h1, fun x => ?_⟩
      rw [h2 x]
      constructor
      · rintro (h | h)
        · exact Or.inl h
        · exact Or.inr (List.mem_cons_of_mem a h)
      · rintro (h | h)
        · exact Or.inl h
        · rcases List.mem_cons.mp h with rfl | h
          · exact Or.inl ha
          · exact Or.inr h
    · rw [if_neg ha]
      have hacc2 : (acc ++ [a]).Nodup := by
        simp [List.nodup_append, hacc, ha]
      obtain ⟨h1, h2⟩ := ih (acc ++ [a]) hacc2
      refine ⟨h1, fun x => ?_⟩
      rw [h2 x]
      simp only [List.mem_append, List.mem_singleton, List.mem_cons]
      tauto

theorem uniqueFirst_nodup {α : Type} [DecidableEq α] (l : List α) :
    (uniqueFirst l).Nodup :=
  (uniqueFirst_aux l [] List.nodup_nil).1

theorem mem_uniqueFirst {α : Type} [DecidableEq α] (l : List α) (x : α) :
    x ∈ uniqueFirst l ↔ x ∈ l := by
  rw [uniqueFirst, (uniqueFirst_aux l [] List.nodup_nil).2 x]
  simp

theorem uniqueFirst_length_eq_dedup {α : Type} [DecidableEq α] (l : List α) :
    (uniqueFirst l).length = l.dedup.length := by
  have h1 : (uniqueFirst l).toFinset = l.toFinset := by
    ext x
    simp [List.mem_toFinset, mem_uniqueFirst]
  calc (uniqueFirst l).length = (uniqueFirst l).toFinset.card :=
        (List.toFinset_card_of_nodup (uniqueFirst_nodup l)).symm
    _ = l.toFinset.card := by rw [h1]
    _ = l.dedup.length := List.card_toFinset l

theorem two_le_dedup_of_two_mem {α : Type} [DecidableEq α] {l : List α} {a b : α}
    (ha : a ∈ l) (hb : b ∈ l) (hab : a ≠ b) : 2 ≤ l.dedup.length := by
  rw [← List.card_toFinset]
  refine Finset.one_lt_card.mpr ⟨a, ?_, b, ?_, hab⟩ <;>
    simp [List.mem_toFinset, ha, hb]

theorem dedup_length_le_of_subset {α : Type} [DecidableEq α] {l1 l2 : List α}
    (h : ∀ x ∈ l1, x ∈ l2) : l1.dedup.length ≤ l2.dedup.length := by
  rw [← List.card_toFinset, ← List.card_toFinset]
  refine Finset.card_le_card ?_
  intro x hx
  simp only [List.mem_toFinset] at hx ⊢
  exact h x hx

theorem mem_sortByLe {α : Type} (le : α → α → Bool) (l : List α) (x : α) :
    x ∈ sortByLe le l ↔ x ∈ l :=
  (sortByLe_perm le l).mem_iff

theorem medianCells_isVal (cells : List NumCell)
    (hinf : ∀ x ∈ cells, x.isinf = false)
    (hex : ∃ x ∈ cells, x.isna = false) :
    ∃ q : ℚ, medianCells cells = .val q := by
  have hmemval : ∀ x ∈ sortByLe NumCell.leB (cells.filter (fun c => !c.isna)),
      ∃ q : ℚ, x = .val q := by
    intro x hx
    rw [mem_sortByLe] at hx
    have hc := List.mem_filter.mp hx
    have h1 : x.isna = false := by simpa using hc.2
    have h2 : x.isinf = false := hinf x hc.1
    cases x with
    | na => simp [NumCell.isna] at h1
    | pinf => simp [NumCell.isinf] at h2
    | ninf => simp [NumCell.isinf] at h2
    | val q => exact ⟨q, rfl⟩
  have hne : (sortByLe NumCell.leB (cells.filter (fun c => !c.isna))).length ≠ 0 := by
    rw [(sortByLe_perm _ _).length_eq]
    obtain ⟨x, hx, hxna⟩ := hex
    have : x ∈ cells.filter (fun c => !c.isna) := by
      simp [List.mem_filter, hx, hxna]
    intro hlen
    rw [List.length_eq_zero] at hlen
    simp [hlen] at this
  set nn := sortByLe NumCell.leB (cells.filter (fun c => !c.isna)) with hnn
  unfold medianCells
  rw [← hnn]
  set n := nn.length with hn
  rw [if_neg hne]
  by_cases hodd : n % 2 = 1
  · rw [if_pos hodd]
    have hlt : n / 2 < n := Nat.div_lt_self (Nat.pos_of_ne_zero hne) (by omega)
    rw [List.getD_eq_getElem _ _ hlt]
    exact hmemval _ (List.getElem_mem hlt)
  · rw [if_neg hodd]
    have h2 : 2 ≤ n := by omega
    have hlt1 : n / 2 - 1 < n := by omega
    have hlt2 : n / 2 < n := by omega
    rw [List.getD_eq_getElem _ _ hlt1, List.getD_eq_getElem _ _ hlt2]
    obtain ⟨a, ha⟩ := hmemval _ (List.getElem_mem hlt1)
    obtain ⟨b, hb⟩ := hmemval _ (List.getElem_mem hlt2)
    rw [ha, hb]
    exact ⟨(a + b) / 2, rfl⟩

theorem processFeatureCol_noop (n : ℕ) (nm : String) (cells : List NumCell)
    (hval : ∀ x ∈ cells, ∃ q : ℚ, x = .val q)
    (hu : 2 ≤ (ColData.numeric cells).nunique)
    (hlen : cells.length = n) :
    processFeatureCol n ⟨nm, .numeric cells⟩ = (some ⟨nm, .numeric cells⟩, [], []) := by
  have hnm : (ColData.numeric cells).nmissing = 0 := by
    simp only [ColData.nmissing, List.length_eq_zero, List.filter_eq_nil_iff]
    intro x hx
    obtain ⟨q, rfl⟩ := hval x hx
    simp [NumCell.isna]
  have hnpos : 0 < n := by
    have h1 : (ColData.numeric cells).nunique ≤ cells.length := by
      simp only [ColData.nunique]
      exact (List.Sublist.length_le (List.dedup_sublist _)).trans
        (List.Sublist.length_le (List.filter_sublist _))
    omega
  have hcond : (if 0 < n then
      decide ((((0:ℕ) : ℚ)) / (n : ℚ) > 9 / 10) else true) = false := by
    rw [if_pos hnpos]
    norm_num
  simp only [processFeatureCol, hnm, Nat.lt_irrefl, if_false, Bool.false_eq_true,
    Nat.not_lt, if_neg (show ¬ ((ColData.numeric cells).nunique ≤ 1) by omega)]
  rw [hcond]
  simp

theorem processFeatureCol_name (n : ℕ) (c c2 : Col) (a : List CleaningAction)
    (w : List String) (h : processFeatureCol n c = (some c2, a, w)) :
    c2.name = c.name := by
  unfold processFeatureCol at h
  by_cases h1 : c.data.nunique ≤ 1
  · rw [if_pos h1] at h
    simp at h
  · rw [if_neg h1] at h
    by_cases h2 : (if 0 < n then
        decide ((c.data.nmissing : ℚ) / (n : ℚ) > 9 / 10) else true) = true
    · rw [if_pos h2] at h
      simp at h
    · rw [if_neg h2] at h
      simp only [Prod.mk.injEq, Option.some.injEq] at h
      rw [← h.1]

theorem autoCleanStep2_noop (n : ℕ) (target : String) (cols : List Col)
    (h : ∀ c ∈ cols, ¬ c.name = target → processFeatureCol n c = (some c, [], [])) :
    autoCleanStep2 n target cols = (cols, [], [], 0) := by
  induction cols with
  | nil => rfl
  | cons c t ih =>
    have htail : autoCleanStep2 n target t = (t, [], [], 0) :=
      ih (fun c2 hc2 => h c2 (List.mem_cons_of_mem c hc2))
    unfold autoCleanStep2
    rw [htail]
    by_cases hc : c.name = target
    · rw [if_pos hc]
    · rw [if_neg hc, h c (List.mem_cons_self c t) hc]
      simp

theorem step0Col_noop (c : Col)
    (h : ∀ cells, c.data = .numeric cells → ∀ x ∈ cells, x.isinf = false) :
    step0Col c = (c, []) := by
  obtain ⟨nm, data⟩ := c
  cases data with
  | categorical cells => rfl
  | numeric cells =>
    have hfilter : cells.filter (fun x => x.isinf) = [] := by
      rw [List.filter_eq_nil_iff]
      intro x hx
      simp [h cells rfl x hx]
    unfold step0Col
    simp [hfilter]

theorem autoCleanStep0_noop (df : DataFrame)
    (h : ∀ c ∈ df.cols, ∀ cells, c.data = .numeric cells → ∀ x ∈ cells, x.isinf = false) :
    autoCleanStep0 df = (df, []) := by
  unfold autoCleanStep0
  have hmap : df.cols.map step0Col = df.cols.map (fun c => (c, [])) :=
    List.map_congr_left (fun c hc => step0Col_noop c (h c hc))
  rw [hmap]
  obtain ⟨cols⟩ := df
  simp only [List.map_map]
  have h1 : List.map (Prod.fst ∘ fun c : Col => (c, ([] : List CleaningAction))) cols = cols :=
    List.map_id cols
  have h2 : List.map (Prod.snd ∘ fun c : Col => (c, ([] : List CleaningAction))) cols =
      List.map (fun _ => ([] : List CleaningAction)) cols := rfl
  rw [h1, h2]
  simp

theorem autoCleanStep1_noop (origN : ℕ) (df : DataFrame) (target : String)
    (h : ∀ tc, df.getCol target = some tc → tc.data.nmissing = 0) :
    autoCleanStep1 origN df target = (df, [], []) := by
  unfold autoCleanStep1
  cases htc : df.getCol target with
  | none => rfl
  | some tc =>
    simp [h tc htc]

theorem auto_clean_noop_actions (df : DataFrame) (target : String)
    (hinf : ∀ c ∈ df.cols, ∀ cells, c.data = ColData.numeric cells → ∀ x ∈ cells, x.isinf = false)
    (htc : ∀ tc, df.getCol target = some tc → tc.data.nmissing = 0)
    (hfeat : ∀ c ∈ df.cols, ¬ c.name = target → ∃ cells, c.data = ColData.numeric cells ∧
      (∀ x ∈ cells, ∃ q : ℚ, x = .val q) ∧ 2 ≤ c.data.nunique ∧ cells.length = df.nrows) :
    (_auto_clean df target).actions = [] := by
  have h0 := autoCleanStep0_noop df hinf
  have h1 := autoCleanStep1_noop df.nrows df target htc
  have hfeat2 : ∀ c ∈ df.cols, ¬ c.name = target →
      processFeatureCol df.nrows c = (some c, [], []) := by
    intro c hc hcn
    obtain ⟨cells, hdata, hval, hu, hlen⟩ := hfeat c hc hcn
    obtain ⟨nm, data⟩ := c
    simp only at hdata
    subst hdata
    exact processFeatureCol_noop df.nrows nm cells hval (by simpa using hu) hlen
  have h2 := autoCleanStep2_noop df.nrows target df.cols hfeat2
  unfold _auto_clean
  rw [h0]
  simp only [h1, h2]
  rfl

theorem mem_catValsOf (cells : List CatCell) (s : String) :
    s ∈ catValsOf cells ↔ CatCell.val s ∈ cells := by
  simp only [catValsOf, List.mem_filterMap]
  constructor
  · rintro ⟨a, ha, hfa⟩
    cases a with
    | na => simp at hfa
    | val t => simp at hfa; subst hfa; exact ha
  · intro h
    exact ⟨.val s, h, rfl⟩

theorem fillNum_allVal (cells : List NumCell)
    (hinf : ∀ x ∈ cells, x.isinf = false)
    (hmed : ∃ q : ℚ, medianCells cells = .val q) :
    ∀ x ∈ cells.map (fun x => if x.isna then medianCells cells else x),
      ∃ q : ℚ, x = .val q := by
  intro x hx
  obtain ⟨y, hy, rfl⟩ := List.mem_map.mp hx
  by_cases hna : y.isna
  · rw [if_pos hna]
    exact hmed
  · rw [if_neg hna]
    have h2 := hinf y hy
    cases y with
    | na => simp [NumCell.isna] at hna
    | pinf => simp [NumCell.isinf] at h2
    | ninf => simp [NumCell.isinf] at h2
    | val q => exact ⟨q, rfl⟩

theorem nunique_fillNum_ge (cells : List NumCell) (m' : NumCell) :
    (ColData.numeric cells).nunique ≤
      (ColData.numeric (cells.map (fun x => if x.isna then m' else x))).nunique := by
  simp only [ColData.nunique]
  refine dedup_length_le_of_subset ?_
  intro x hx
  rw [List.mem_filter] at hx ⊢
  obtain ⟨hmem, hna⟩ := hx
  refine ⟨?_, hna⟩
  have : (fun y => if y.isna then m' else y) x = x := by
    have hfalse : x.isna = false := by simpa using hna
    simp [hfalse]
  rw [← this]
  exact List.mem_map_of_mem _ hmem

theorem fillCat_allVal (cells : List CatCell) (fv : String) :
    ∀ x ∈ cells.map (fun x => if x.isna then CatCell.val fv else x),
      ∃ s : String, x = .val s := by
  intro x hx
  obtain ⟨y, hy, rfl⟩ := List.mem_map.mp hx
  by_cases hna : y.isna
  · rw [if_pos hna]
    exact ⟨fv, rfl⟩
  · rw [if_neg hna]
    cases y with
    | na => simp [CatCell.isna] at hna
    | val s => exact ⟨s, rfl⟩

theorem catValsOf_fill_subset (cells : List CatCell) (fv : String) :
    ∀ s ∈ catValsOf cells,
      s ∈ catValsOf (cells.map (fun x => if x.isna then CatCell.val fv else x)) := by
  intro s hs
  rw [mem_catValsOf] at hs ⊢
  have : (fun x => if x.isna then CatCell.val fv else x) (CatCell.val s) = CatCell.val s := rfl
  rw [← this]
  exact List.mem_map_of_mem _ hs

theorem collapse_allVal (cells : List CatCell) :
    ∀ x ∈ collapseTop99 cells, ∃ s : String, x = .val s := by
  intro x hx
  obtain ⟨y, hy, rfl⟩ := List.mem_map.mp hx
  cases y with
  | na => exact ⟨"_other_", rfl⟩
  | val s =>
    by_cases h : s ∈ top99 cells
    · exact ⟨s, by simp [h]⟩
    · exact ⟨"_other_", by simp [h]⟩

theorem encode_allVal (cells : List CatCell) :
    ∀ x ∈ encodeCat cells, ∃ q : ℚ, x = .val q := by
  intro x hx
  obtain ⟨y, hy, rfl⟩ := List.mem_map.mp hx
  cases y with
  | na => exact ⟨-1, rfl⟩
  | val s => exact ⟨_, rfl⟩

theorem collapse_nunique_ge_two (cells : List CatCell)
    (h : 100 < (catValsOf cells).dedup.length) :
    2 ≤ (catValsOf (collapseTop99 cells)).dedup.length := by
  have hperm0 : (valueCounts cells).Perm
      ((uniqueFirst (catValsOf cells)).map (fun s => (s, (catValsOf cells).count s))) := by
    unfold valueCounts
    exact sortByLe_perm _ _
  have hpermfst : ((valueCounts cells).map Prod.fst).Perm (uniqueFirst (catValsOf cells)) := by
    have h1 := hperm0.map Prod.fst
    rw [List.map_map] at h1
    have h2 : List.map (Prod.fst ∘ fun s => (s, (catValsOf cells).count s))
        (uniqueFirst (catValsOf cells)) = uniqueFirst (catValsOf cells) := List.map_id _
    rw [h2] at h1
    exact h1
  have hUnodup := uniqueFirst_nodup (catValsOf cells)
  have hfstnodup : ((valueCounts cells).map Prod.fst).Nodup :=
    hpermfst.nodup_iff.mpr hUnodup
  have hlen : (valueCounts cells).length = (catValsOf cells).dedup.length := by
    have h1 : (valueCounts cells).length = ((valueCounts cells).map Prod.fst).length :=
      (List.length_map _ _).symm
    rw [h1, hpermfst.length_eq, uniqueFirst_length_eq_dedup]
  have htop_eq : top99 cells = ((valueCounts cells).map Prod.fst).take 99 := by
    unfold top99
    rw [List.map_take]
  have htopnodup : (top99 cells).Nodup := by
    rw [htop_eq]
    exact hfstnodup.sublist (List.take_sublist _ _)
  have htoplen : (top99 cells).length = 99 := by
    rw [htop_eq, List.length_take, List.length_map, hlen]
    omega
  have htopsub : ∀ s ∈ top99 cells, s ∈ catValsOf cells := by
    intro s hs
    rw [htop_eq] at hs
    have h2 : s ∈ (valueCounts cells).map Prod.fst := List.mem_of_mem_take hs
    exact (mem_uniqueFirst _ _).mp (hpermfst.mem_iff.mp h2)
  obtain ⟨u, hu_mem, hu_ne⟩ : ∃ u ∈ top99 cells, u ≠ "_other_" := by
    obtain ⟨a, ta, hta⟩ := List.exists_cons_of_ne_nil
      (show top99 cells ≠ [] by intro hnil; rw [hnil] at htoplen; simp at htoplen)
    obtain ⟨b, tb, htb⟩ := List.exists_cons_of_ne_nil
      (show ta ≠ [] by
        intro hnil
        rw [hta, hnil] at htoplen
        simp at htoplen)
    have hab : a ≠ b := by
      have := htopnodup
      rw [hta, htb] at this
      simp only [List.nodup_cons, List.mem_cons] at this
      exact fun he => this.1 (Or.inl he)
    by_cases ha : a = "_other_"
    · refine ⟨b, ?_, ?_⟩
      · rw [hta, htb]
        exact List.mem_cons_of_mem a (List.mem_cons_self b tb)
      · exact fun he => hab (ha.trans he.symm)
    · exact ⟨a, by rw [hta]; exact List.mem_cons_self a ta, ha⟩
  obtain ⟨w, hw_mem, hw_not⟩ : ∃ w ∈ catValsOf cells, w ∉ top99 cells := by
    by_contra hall
    push_neg at hall
    have hsub : (uniqueFirst (catValsOf cells)).toFinset ⊆ (top99 cells).toFinset := by
      intro x hx
      rw [List.mem_toFinset] at hx ⊢
      exact hall x ((mem_uniqueFirst _ _).mp hx)
    have hcard := Finset.card_le_card hsub
    rw [List.toFinset_card_of_nodup hUnodup, List.toFinset_card_of_nodup htopnodup,
      uniqueFirst_length_eq_dedup, htoplen] at hcard
    omega
  have hu_in : u ∈ catValsOf (collapseTop99 cells) := by
    rw [mem_catValsOf]
    have h4 : CatCell.val u ∈ cells := (mem_catValsOf _ _).mp (htopsub u hu_mem)
    have h5 : (fun c => match c with
        | CatCell.na => CatCell.val "_other_"
        | CatCell.val s => if s ∈ top99 cells then CatCell.val s else CatCell.val "_other_")
          (CatCell.val u) = CatCell.val u := by
      simp [hu_mem]
    have h6 : collapseTop99 cells = cells.map (fun c => match c with
        | CatCell.na => CatCell.val "_other_"
        | CatCell.val s => if s ∈ top99 cells then CatCell.val s else CatCell.val "_other_") := rfl
    rw [h6]
    exact List.mem_map.mpr ⟨_, h4, h5⟩
  have hother_in : "_other_" ∈ catValsOf (collapseTop99 cells) := by
    rw [mem_catValsOf]
    have h4 : CatCell.val w ∈ cells := (mem_catValsOf _ _).mp hw_mem
    have h5 : (fun c => match c with
        | CatCell.na => CatCell.val "_other_"
        | CatCell.val s => if s ∈ top99 cells then CatCell.val s else CatCell.val "_other_")
          (CatCell.val w) = CatCell.val "_other_" := by
      simp [hw_not]
    have h6 : collapseTop99 cells = cells.map (fun c => match c with
        | CatCell.na => CatCell.val "_other_"
        | CatCell.val s => if s ∈ top99 cells then CatCell.val s else CatCell.val "_other_") := rfl
    rw [h6]
    exact List.mem_map.mpr ⟨_, h4, h5⟩
  exact two_le_dedup_of_two_mem hu_in hother_in hu_ne

theorem encode_nunique_ge_two (cells : List CatCell)
    (h : 2 ≤ (catValsOf cells).dedup.length) :
    2 ≤ (ColData.numeric (encodeCat cells)).nunique := by
  obtain ⟨a, ha, b, hb, hab⟩ :
      ∃ a ∈ (catValsOf cells).toFinset, ∃ b ∈ (catValsOf cells).toFinset, a ≠ b := by
    refine Finset.one_lt_card.mp ?_
    rw [List.card_toFinset]
    omega
  rw [List.mem_toFinset] at ha hb
  have hamem : a ∈ sortByLe (fun a b : String => decide (a ≤ b)) (uniqueFirst (catValsOf cells)) := by
    rw [mem_sortByLe, mem_uniqueFirst]
    exact ha
  have hbmem : b ∈ sortByLe (fun a b : String => decide (a ≤ b)) (uniqueFirst (catValsOf cells)) := by
    rw [mem_sortByLe, mem_uniqueFirst]
    exact hb
  have hidx : (sortByLe (fun a b : String => decide (a ≤ b)) (uniqueFirst (catValsOf cells))).indexOf a ≠
      (sortByLe (fun a b : String => decide (a ≤ b)) (uniqueFirst (catValsOf cells))).indexOf b :=
    fun he => hab ((List.indexOf_inj hamem hbmem).mp he)
  have henc : encodeCat cells = cells.map (fun c =>
      match c with
      | CatCell.na => NumCell.val (-1)
      | CatCell.val s => NumCell.val
          (((sortByLe (fun a b : String => decide (a ≤ b)) (uniqueFirst (catValsOf cells))).indexOf s : ℤ) : ℚ)) := rfl
  have hfa : NumCell.val (((sortByLe (fun a b : String => decide (a ≤ b)) (uniqueFirst (catValsOf cells))).indexOf a : ℤ) : ℚ) ∈ encodeCat cells := by
    rw [henc]
    exact List.mem_map.mpr ⟨CatCell.val a, (mem_catValsOf _ _).mp ha, rfl⟩
  have hfb : NumCell.val (((sortByLe (fun a b : String => decide (a ≤ b)) (uniqueFirst (catValsOf cells))).indexOf b : ℤ) : ℚ) ∈ encodeCat cells := by
    rw [henc]
    exact List.mem_map.mpr ⟨CatCell.val b, (mem_catValsOf _ _).mp hb, rfl⟩
  have hne : NumCell.val (((sortByLe (fun a b : String => decide (a ≤ b)) (uniqueFirst (catValsOf cells))).indexOf a : ℤ) : ℚ) ≠
      NumCell.val (((sortByLe (fun a b : String => decide (a ≤ b)) (uniqueFirst (catValsOf cells))).indexOf b : ℤ) : ℚ) := by
    intro he
    apply hidx
    have h1 : (((sortByLe (fun a b : String => decide (a ≤ b)) (uniqueFirst (catValsOf cells))).indexOf a : ℤ) : ℚ) =
        (((sortByLe (fun a b : String => decide (a ≤ b)) (uniqueFirst (catValsOf cells))).indexOf b : ℤ) : ℚ) := by
      injection he
    exact_mod_cast h1
  simp only [ColData.nunique]
  refine two_le_dedup_of_two_mem ?_ ?_ hne
  · exact List.mem_filter.mpr ⟨hfa, rfl⟩
  · exact List.mem_filter.mpr ⟨hfb, rfl⟩

theorem step0Col_name (c : Col) : (step0Col c).1.name = c.name := by
  obtain ⟨nm, data⟩ := c
  cases data with
  | categorical cells => rfl
  | numeric cells =>
    unfold step0Col
    dsimp only
    split <;> rfl

theorem step0Col_noinf (c : Col) :
    ∀ cells, (step0Col c).1.data = ColData.numeric cells → ∀ x ∈ cells, x.isinf = false := by
  obtain ⟨nm, data⟩ := c
  cases data with
  | categorical cs =>
    intro cells hcells
    simp only [step0Col] at hcells
    simp at hcells
  | numeric cs =>
    intro cells hcells x hx
    simp only [step0Col] at hcells
    by_cases h : 0 < (cs.filter (fun x => x.isinf)).length
    · rw [if_pos h] at hcells
      simp only [ColData.numeric.injEq] at hcells
      rw [← hcells] at hx
      obtain ⟨y, hy, rfl⟩ := List.mem_map.mp hx
      by_cases hyi : y.isinf
      · rw [if_pos hyi]
        rfl
      · rw [if_neg hyi]
        simpa using hyi
    · rw [if_neg h] at hcells
      simp only [ColData.numeric.injEq] at hcells
      rw [← hcells] at hx
      have hnil : cs.filter (fun x => x.isinf) = [] :=
        List.length_eq_zero.mp (by omega)
      have := List.filter_eq_nil_iff.mp hnil x hx
      simpa using this

theorem step0Col_length (c : Col) : (step0Col c).1.data.length = c.data.length := by
  obtain ⟨nm, data⟩ := c
  cases data with
  | categorical cs => rfl
  | numeric cs =>
    unfold step0Col
    dsimp only
    split
    · simp [ColData.length]
    · rfl

theorem keepMask_length (d : ColData) : d.keepMask.length = d.length := by
  cases d <;> simp [ColData.keepMask, ColData.length]

theorem maskCol_name (m : List Bool) (c : Col) : (maskCol m c).name = c.name := by
  obtain ⟨nm, data⟩ := c
  cases data <;> rfl

theorem maskCol_noinf (m : List Bool) (c : Col)
    (h : ∀ cells, c.data = ColData.numeric cells → ∀ x ∈ cells, x.isinf = false) :
    ∀ cells, (maskCol m c).data = ColData.numeric cells → ∀ x ∈ cells, x.isinf = false := by
  obtain ⟨nm, data⟩ := c
  cases data with
  | categorical cs =>
    intro cells hcells
    simp only [maskCol] at hcells
    simp at hcells
  | numeric cs =>
    intro cells hcells x hx
    simp only [maskCol] at hcells
    simp only [ColData.numeric.injEq] at hcells
    rw [← hcells] at hx
    exact h cs rfl x (mem_maskCells m cs x hx)

theorem maskCol_length (m : List Bool) (c : Col) (h : c.data.length = m.length) :
    (maskCol m c).data.length = (m.filter id).length := by
  obtain ⟨nm, data⟩ := c
  cases data with
  | numeric cs =>
    simp only [maskCol, ColData.length]
    exact maskCells_length_eq m cs (by simpa [ColData.length] using h)
  | categorical cs =>
    simp only [maskCol, ColData.length]
    exact maskCells_length_eq m cs (by simpa [ColData.length] using h)

theorem maskCol_self_nmissing (c : Col) :
    (maskCol c.data.keepMask c).data.nmissing = 0 := by
  obtain ⟨nm, data⟩ := c
  cases data with
  | numeric cells =>
    simp only [maskCol, ColData.keepMask, ColData.nmissing]
    rw [List.length_eq_zero, List.filter_eq_nil_iff]
    intro x hx
    have := maskCells_keep_not_p (fun c => c.isna) cells x hx
    simp [this]
  | categorical cells =>
    simp only [maskCol, ColData.keepMask, ColData.nmissing]
    rw [List.length_eq_zero, List.filter_eq_nil_iff]
    intro x hx
    have := maskCells_keep_not_p (fun c => c.isna) cells x hx
    simp [this]

theorem find?_name_map (cols : List Col) (f : Col → Col) (t : String)
    (hf : ∀ c, (f c).name = c.name) :
    (cols.map f).find? (fun c => c.name = t) = (cols.find? (fun c => c.name = t)).map f := by
  rw [List.find?_map]
  have hp : ((fun c : Col => decide (c.name = t)) ∘ f) = (fun c : Col => decide (c.name = t)) := by
    funext c
    simp [Function.comp, hf c]
  rw [hp]

theorem autoCleanStep0_cols (df : DataFrame) :
    (autoCleanStep0 df).1.cols = df.cols.map (fun c => (step0Col c).1) := by
  simp only [autoCleanStep0, List.map_map]
  rfl

theorem autoCleanStep0_noinf (df : DataFrame) :
    ∀ c2 ∈ (autoCleanStep0 df).1.cols, ∀ cells, c2.data = ColData.numeric cells →
      ∀ x ∈ cells, x.isinf = false := by
  rw [autoCleanStep0_cols]
  intro c2 hc2
  obtain ⟨c, hc, rfl⟩ := List.mem_map.mp hc2
  exact step0Col_noinf c

theorem autoCleanStep0_uniform (df : DataFrame) (L : ℕ)
    (h : ∀ c ∈ df.cols, c.data.length = L) :
    ∀ c2 ∈ (autoCleanStep0 df).1.cols, c2.data.length = L := by
  rw [autoCleanStep0_cols]
  intro c2 hc2
  obtain ⟨c, hc, rfl⟩ := List.mem_map.mp hc2
  rw [step0Col_length]
  exact h c hc

theorem exists_nonna_of_nunique_pos (cells : List NumCell)
    (h : 0 < (ColData.numeric cells).nunique) :
    ∃ x ∈ cells, x.isna = false := by
  simp only [ColData.nunique] at h
  have hne : cells.filter (fun c => !c.isna) ≠ [] := by
    intro he
    rw [he] at h
    simp at h
  obtain ⟨x, hx⟩ := List.exists_mem_of_ne_nil _ hne
  have h2 := List.mem_filter.mp hx
  exact ⟨x, h2.1, by simpa using h2.2⟩

theorem allval_of_no_missing (cells : List NumCell)
    (hm : (ColData.numeric cells).nmissing = 0)
    (hinf : ∀ x ∈ cells, x.isinf = false) :
    ∀ x ∈ cells, ∃ q : ℚ, x = NumCell.val q := by
  intro x hx
  have hna : x.isna = false := by
    simp only [ColData.nmissing, List.length_eq_zero, List.filter_eq_nil_iff] at hm
    simpa using hm x hx
  have h2 := hinf x hx
  cases x with
  | na => simp [NumCell.isna] at hna
  | pinf => simp [NumCell.isinf] at h2
  | ninf => simp [NumCell.isinf] at h2
  | val q => exact ⟨q, rfl⟩

theorem autoCleanStep1_cases (origN : ℕ) (df : DataFrame) (t : String) :
    ((autoCleanStep1 origN df t).1 = df ∧
      ∀ tc, df.getCol t = some tc → tc.data.nmissing = 0) ∨
    ∃ tc, df.getCol t = some tc ∧ 0 < tc.data.nmissing ∧
      (autoCleanStep1 origN df t).1 = ⟨df.cols.map (maskCol tc.data.keepMask)⟩ := by
  unfold autoCleanStep1
  cases htc : df.getCol t with
  | none =>
    refine Or.inl ⟨rfl, ?_⟩
    intro tc h2
    simp at h2
  | some tc =>
    dsimp only
    by_cases hm : 0 < tc.data.nmissing
    · exact Or.inr ⟨tc, rfl, hm, by rw [if_pos hm]⟩
    · refine Or.inl ⟨by rw [if_neg hm], ?_⟩
      intro tc2 h2
      have h3 : tc = tc2 := by simpa using h2
      rw [← h3]
      omega

theorem autoCleanStep1_target (origN : ℕ) (df : DataFrame) (t : String) (tc2 : Col)
    (h : (autoCleanStep1 origN df t).1.getCol t = some tc2) :
    tc2.data.nmissing = 0 := by
  rcases autoCleanStep1_cases origN df t with ⟨heq, hprop⟩ | ⟨tc, htc, hm, heq⟩
  · rw [heq] at h
    exact hprop tc2 h
  · rw [heq] at h
    have h2 : (DataFrame.mk (df.cols.map (maskCol tc.data.keepMask))).getCol t =
        (df.getCol t).map (maskCol tc.data.keepMask) := by
      simp only [DataFrame.getCol]
      exact find?_name_map df.cols _ t (maskCol_name _)
    rw [h2, htc] at h
    have h3 : maskCol tc.data.keepMask tc = tc2 := by simpa using h
    rw [← h3]
    exact maskCol_self_nmissing tc

theorem autoCleanStep1_noinf (origN : ℕ) (df : DataFrame) (t : String)
    (h : ∀ c ∈ df.cols, ∀ cells, c.data = ColData.numeric cells → ∀ x ∈ cells, x.isinf = false) :
    ∀ c2 ∈ (autoCleanStep1 origN df t).1.cols, ∀ cells, c2.data = ColData.numeric cells →
      ∀ x ∈ cells, x.isinf = false := by
  rcases autoCleanStep1_cases origN df t with ⟨heq, -⟩ | ⟨tc, htc, hm, heq⟩
  · rw [heq]
    exact h
  · rw [heq]
    intro c2 hc2
    obtain ⟨c, hc, rfl⟩ := List.mem_map.mp hc2
    exact maskCol_noinf _ c (h c hc)

theorem autoCleanStep1_uniform (origN : ℕ) (df : DataFrame) (t : String) (L : ℕ)
    (h : ∀ c ∈ df.cols, c.data.length = L) :
    ∃ L2, ∀ c2 ∈ (autoCleanStep1 origN df t).1.cols, c2.data.length = L2 := by
  rcases autoCleanStep1_cases origN df t with ⟨heq, -⟩ | ⟨tc, htc, hm, heq⟩
  · exact ⟨L, by rw [heq]; exact h⟩
  · refine ⟨(tc.data.keepMask.filter id).length, ?_⟩
    rw [heq]
    intro c2 hc2
    obtain ⟨c, hc, rfl⟩ := List.mem_map.mp hc2
    have htcmem : tc ∈ df.cols := List.mem_of_find?_eq_some htc
    refine maskCol_length _ c ?_
    rw [h c hc, keepMask_length, h tc htcmem]

theorem autoCleanStep2_mem (n : ℕ) (t : String) (cols : List Col) (c2 : Col)
    (h : c2 ∈ (autoCleanStep2 n t cols).1) :
    (c2 ∈ cols ∧ c2.name = t) ∨
    ∃ c ∈ cols, ¬ c.name = t ∧ ∃ a w, processFeatureCol n c = (some c2, a, w) := by
  induction cols with
  | nil => simp [autoCleanStep2] at h
  | cons c rest ih =>
    unfold autoCleanStep2 at h
    by_cases hc : c.name = t
    · rw [if_pos hc] at h
      dsimp only at h
      rcases List.mem_cons.mp h with rfl | h3
      · exact Or.inl ⟨List.mem_cons_self _ _, hc⟩
      · rcases ih h3 with ⟨h4, h5⟩ | ⟨cc, h4, h5, a2, w2, h6⟩
        · exact Or.inl ⟨List.mem_cons_of_mem _ h4, h5⟩
        · exact Or.inr ⟨cc, List.mem_cons_of_mem _ h4, h5, a2, w2, h6⟩
    · rw [if_neg hc] at h
      rcases hpf : processFeatureCol n c with ⟨o, acts, warns⟩
      cases o with
      | some cKept =>
        rw [hpf] at h
        dsimp only at h
        rcases List.mem_cons.mp h with rfl | h3
        · exact Or.inr ⟨c, List.mem_cons_self _ _, hc, acts, warns, hpf⟩
        · rcases ih h3 with ⟨h4, h5⟩ | ⟨cc, h4, h5, a2, w2, h6⟩
          · exact Or.inl ⟨List.mem_cons_of_mem _ h4, h5⟩
          · exact Or.inr ⟨cc, List.mem_cons_of_mem _ h4, h5, a2, w2, h6⟩
      | none =>
        rw [hpf] at h
        dsimp only at h
        rcases ih h with ⟨h4, h5⟩ | ⟨cc, h4, h5, a2, w2, h6⟩
        · exact Or.inl ⟨List.mem_cons_of_mem _ h4, h5⟩
        · exact Or.inr ⟨cc, List.mem_cons_of_mem _ h4, h5, a2, w2, h6⟩

theorem autoCleanStep2_find_target (n : ℕ) (t : String) (cols : List Col) :
    (autoCleanStep2 n t cols).1.find? (fun c => c.name = t) =
      cols.find? (fun c => c.name = t) := by
  induction cols with
  | nil => rfl
  | cons c rest ih =>
    unfold autoCleanStep2
    by_cases hc : c.name = t
    · rw [if_pos hc]
      dsimp only
      rw [List.find?_cons_of_pos _ (by simp [hc]), List.find?_cons_of_pos _ (by simp [hc])]
    · rw [if_neg hc]
      rcases hpf : processFeatureCol n c with ⟨o, acts, warns⟩
      cases o with
      | some cKept =>
        dsimp only
        have hname : cKept.name = c.name := processFeatureCol_name n c cKept acts warns hpf
        rw [List.find?_cons_of_neg _ (by simp [hname, hc]),
          List.find?_cons_of_neg _ (by simp [hc])]
        exact ih
      | none =>
        dsimp only
        rw [List.find?_cons_of_neg _ (by simp [hc])]
        exact ih

theorem uniform_nrows (df : DataFrame) (L : ℕ)
    (h : ∀ c ∈ df.cols, c.data.length = L) :
    ∀ c ∈ df.cols, c.data.length = df.nrows := by
  obtain ⟨cols⟩ := df
  cases cols with
  | nil =>
    intro c hc
    simp at hc
  | cons c0 rest =>
    intro c hc
    have h0 : c0.data.length = L := h c0 (List.mem_cons_self _ _)
    have hcL : c.data.length = L := h c hc
    simp [DataFrame.nrows, hcL, h0]

theorem encodeProps (cellsC : List CatCell) (hded : 2 ≤ (catValsOf cellsC).dedup.length) :
    (∀ x ∈ encodeCat cellsC, ∃ q : ℚ, x = NumCell.val q) ∧
    2 ≤ (ColData.numeric (encodeCat cellsC)).nunique ∧
    (encodeCat cellsC).length = cellsC.length :=
  ⟨encode_allVal cellsC, encode_nunique_ge_two cellsC hded, by simp [encodeCat]⟩

theorem processFeatureCol_some (n : ℕ) (c c2 : Col) (a : List CleaningAction) (w : List String)
    (hinf : ∀ cells, c.data = ColData.numeric cells → ∀ x ∈ cells, x.isinf = false)
    (h : processFeatureCol n c = (some c2, a, w)) :
    c2.name = c.name ∧ ∃ cells2, c2.data = ColData.numeric cells2 ∧
      (∀ x ∈ cells2, ∃ q : ℚ, x = NumCell.val q) ∧
      2 ≤ (ColData.numeric cells2).nunique ∧ cells2.length = c.data.length := by
  obtain ⟨nm, data⟩ := c
  cases data with
  | numeric cells =>
    simp only [processFeatureCol] at h
    by_cases h1 : (ColData.numeric cells).nunique ≤ 1
    · rw [if_pos h1] at h
      simp at h
    rw [if_neg h1] at h
    by_cases h2 : (if 0 < n then
        decide (((ColData.numeric cells).nmissing : ℚ) / (n : ℚ) > 9 / 10) else true) = true
    · rw [if_pos h2] at h
      simp at h
    rw [if_neg h2] at h
    by_cases hm : 0 < (ColData.numeric cells).nmissing
    · rw [if_pos hm] at h
      dsimp only at h
      simp only [Prod.mk.injEq, Option.some.injEq] at h
      obtain ⟨hc2, -, -⟩ := h
      subst hc2
      have hinfc := hinf cells rfl
      have hex := exists_nonna_of_nunique_pos cells (by omega)
      refine ⟨rfl, _, rfl, ?_, ?_, ?_⟩
      · exact fillNum_allVal cells hinfc (medianCells_isVal cells hinfc hex)
      · have := nunique_fillNum_ge cells (medianCells cells)
        omega
      · simp [ColData.length]
    · rw [if_neg hm] at h
      dsimp only at h
      simp only [Prod.mk.injEq, Option.some.injEq] at h
      obtain ⟨hc2, -, -⟩ := h
      subst hc2
      have hm0 : (ColData.numeric cells).nmissing = 0 := by omega
      exact ⟨rfl, cells, rfl, allval_of_no_missing cells hm0 (hinf cells rfl), by omega, rfl⟩
  | categorical cells =>
    simp only [processFeatureCol] at h
    by_cases h1 : (ColData.categorical cells).nunique ≤ 1
    · rw [if_pos h1] at h
      simp at h
    rw [if_neg h1] at h
    by_cases h2 : (if 0 < n then
        decide (((ColData.categorical cells).nmissing : ℚ) / (n : ℚ) > 9 / 10) else true) = true
    · rw [if_pos h2] at h
      simp at h
    rw [if_neg h2] at h
    have hded2 : 2 ≤ (catValsOf cells).dedup.length := by
      have h3 : (ColData.categorical cells).nunique = (catValsOf cells).dedup.length := rfl
      omega
    by_cases hm : 0 < (ColData.categorical cells).nmissing
    · rw [if_pos hm] at h
      dsimp only at h
      have hsub := dedup_length_le_of_subset
        (catValsOf_fill_subset cells ((modeCat cells).getD "unknown"))
      by_cases hcard : HIGH_CARDINALITY_THRESHOLD < (ColData.categorical cells).nunique
      · rw [if_pos hcard] at h
        dsimp only at h
        simp only [Prod.mk.injEq, Option.some.injEq] at h
        obtain ⟨hc2, -, -⟩ := h
        subst hc2
        have hded100 : 100 < (catValsOf (cells.map
            (fun x => if x.isna then CatCell.val ((modeCat cells).getD "unknown") else x))).dedup.length := by
          have h4 : (ColData.categorical cells).nunique = (catValsOf cells).dedup.length := rfl
          have h5 : HIGH_CARDINALITY_THRESHOLD = 100 := rfl
          omega
        obtain ⟨hall, hnu, hlen⟩ := encodeProps _ (collapse_nunique_ge_two _ hded100)
        refine ⟨rfl, _, rfl, hall, hnu, ?_⟩
        rw [hlen]
        simp [collapseTop99, ColData.length]
      · rw [if_neg hcard] at h
        dsimp only at h
        simp only [Prod.mk.injEq, Option.some.injEq] at h
        obtain ⟨hc2, -, -⟩ := h
        subst hc2
        obtain ⟨hall, hnu, hlen⟩ := encodeProps (cells.map
          (fun x => if x.isna then CatCell.val ((modeCat cells).getD "unknown") else x)) (by omega)
        refine ⟨rfl, _, rfl, hall, hnu, ?_⟩
        rw [hlen]
        simp [ColData.length]
    · rw [if_neg hm] at h
      dsimp only at h
      by_cases hcard : HIGH_CARDINALITY_THRESHOLD < (ColData.categorical cells).nunique
      · rw [if_pos hcard] at h
        dsimp only at h
        simp only [Prod.mk.injEq, Option.some.injEq] at h
        obtain ⟨hc2, -, -⟩ := h
        subst hc2
        have hded100 : 100 < (catValsOf cells).dedup.length := by
          have h4 : (ColData.categorical cells).nunique = (catValsOf cells).dedup.length := rfl
          have h5 : HIGH_CARDINALITY_THRESHOLD = 100 := rfl
          omega
        obtain ⟨hall, hnu, hlen⟩ := encodeProps _ (collapse_nunique_ge_two _ hded100)
        refine ⟨rfl, _, rfl, hall, hnu, ?_⟩
        rw [hlen]
        simp [collapseTop99, ColData.length]
      · rw [if_neg hcard] at h
        dsimp only at h
        simp only [Prod.mk.injEq, Option.some.injEq] at h
        obtain ⟨hc2, -, -⟩ := h
        subst hc2
        obtain ⟨hall, hnu, hlen⟩ := encodeProps _ hded2
        exact ⟨rfl, _, rfl, hall, hnu, hlen⟩

theorem auto_clean_df_cols (df : DataFrame) (t : String) :
    (_auto_clean df t).df =
      ⟨(autoCleanStep2 (autoCleanStep1 df.nrows (autoCleanStep0 df).1 t).1.nrows t
          (autoCleanStep1 df.nrows (autoCleanStep0 df).1 t).1.cols).1⟩ := rfl

/-- C7: `_auto_clean` is idempotent on rectangular frames: a second run on
the cleaned frame it produced, with the same target column, performs zero
cleaning actions. -/
theorem auto_clean_idempotent (df : DataFrame) (t : String) (hwf : df.WF) :
    (_auto_clean ((_auto_clean df t).df) t).actions = [] := by
  have h0inf := autoCleanStep0_noinf df
  have h1inf := autoCleanStep1_noinf df.nrows (autoCleanStep0 df).1 t h0inf
  have h0uni := autoCleanStep0_uniform df df.nrows hwf
  obtain ⟨L2, h1uni⟩ := autoCleanStep1_uniform df.nrows (autoCleanStep0 df).1 t df.nrows h0uni
  apply auto_clean_noop_actions
  · intro c2 hc2 cells hcells x hx
    have hc3 : c2 ∈ (autoCleanStep2 (autoCleanStep1 df.nrows (autoCleanStep0 df).1 t).1.nrows t
        (autoCleanStep1 df.nrows (autoCleanStep0 df).1 t).1.cols).1 := by
      rw [auto_clean_df_cols] at hc2
      exact hc2
    rcases autoCleanStep2_mem _ _ _ _ hc3 with ⟨hmem, -⟩ | ⟨c, hmem, -, a, w, hpf⟩
    · exact h1inf c2 hmem cells hcells x hx
    · obtain ⟨-, cells2, hdata, hval, -, -⟩ := processFeatureCol_some _ _ _ _ _ (h1inf c hmem) hpf
      rw [hcells] at hdata
      have hcc : cells = cells2 := by
        injection hdata
      obtain ⟨q, rfl⟩ := hval x (by rw [← hcc]; exact hx)
      rfl
  · intro tc2 h
    have h2 : (_auto_clean df t).df.getCol t =
        (autoCleanStep1 df.nrows (autoCleanStep0 df).1 t).1.getCol t := by
      rw [auto_clean_df_cols]
      simp only [DataFrame.getCol]
      exact autoCleanStep2_find_target _ _ _
    rw [h2] at h
    exact autoCleanStep1_target _ _ _ _ h
  · intro c2 hc2 hcn
    have hc3 : c2 ∈ (autoCleanStep2 (autoCleanStep1 df.nrows (autoCleanStep0 df).1 t).1.nrows t
        (autoCleanStep1 df.nrows (autoCleanStep0 df).1 t).1.cols).1 := by
      rw [auto_clean_df_cols] at hc2
      exact hc2
    rcases autoCleanStep2_mem _ _ _ _ hc3 with ⟨-, hname⟩ | ⟨c, hmem, -, a, w, hpf⟩
    · exact absurd hname hcn
    · obtain ⟨-, cells2, hdata, hval, hnu, hlen⟩ :=
        processFeatureCol_some _ _ _ _ _ (h1inf c hmem) hpf
      have huni2 : ∀ cc ∈ (_auto_clean df t).df.cols, cc.data.length = L2 := by
        intro cc hcc
        have hcc2 : cc ∈ (autoCleanStep2 (autoCleanStep1 df.nrows (autoCleanStep0 df).1 t).1.nrows t
            (autoCleanStep1 df.nrows (autoCleanStep0 df).1 t).1.cols).1 := by
          rw [auto_clean_df_cols] at hcc
          exact hcc
        rcases autoCleanStep2_mem _ _ _ _ hcc2 with ⟨hm2, -⟩ | ⟨c3, hm3, -, a3, w3, hp3⟩
        · exact h1uni cc hm2
        · obtain ⟨-, cells3, hd3, -, -, hl3⟩ :=
            processFeatureCol_some _ _ _ _ _ (h1inf c3 hm3) hp3
          rw [hd3]
          show cells3.length = L2
          rw [hl3]
          exact h1uni c3 hm3
      have hnr := uniform_nrows (_auto_clean df t).df L2 huni2 c2 hc2
      refine ⟨cells2, hdata, hval, ?_, ?_⟩
      · rw [hdata]
        exact hnu
      · have hcl : cells2.length = L2 := by
          rw [hlen]
          exact h1uni c hmem
        rw [hdata] at hnr
        exact hnr

theorem auto_clean_idempotent_witness :
    wDfB.WF ∧ (_auto_clean ((_auto_clean wDfB "t").df) "t").actions = [] :=
  ⟨by decide, auto_clean_idempotent wDfB "t" (by decide)⟩
